import Mathlib

/-!
# Car dealership page script (`static/script.js`)

A shallow embedding of the page script: the two validators with their regular
expressions, the notification banner with its timers, the contact-form submit
handler, the reveal-on-scroll observer callback and the title typing effect.

Modelling choices:

* The strings the validators and the banners handle are Lean strings; the result of
  a validator does not depend on how a character outside the Basic Multilingual
  Plane is counted. The heading of the typing effect, which is indexed and measured
  unit by unit, is a sequence of UTF-16 code units.
* The page is a record of what the script reads and writes; elements the script
  creates are told apart by a number. Timers fire at their nominal due time, in the
  order of their due times and, among equal ones, of their registration.
* `document.querySelector` is read for the one selector line 86 builds, and only
  where the spliced value leaves it the plain attribute selector; elsewhere the
  handler's end is left undetermined.
* The handlers that only decorate other elements (smooth scrolling, header colour,
  ripple, price format, glyph rotation) share no state with the code modelled here
  and are left out.
-/

namespace CarWebsite

/-! ## Regular expressions -/

/-- The character class `\s` of a JavaScript regular expression: the white space
and line terminator code points of the language standard. -/
def isWhitespace (c : Char) : Bool :=
  c.toNat = 0x09 || c.toNat = 0x0A || c.toNat = 0x0B || c.toNat = 0x0C || c.toNat = 0x0D ||
  c.toNat = 0x20 || c.toNat = 0xA0 || c.toNat = 0x1680 ||
  (0x2000 ≤ c.toNat && c.toNat ≤ 0x200A) ||
  c.toNat = 0x2028 || c.toNat = 0x2029 || c.toNat = 0x202F || c.toNat = 0x205F ||
  c.toNat = 0x3000 || c.toNat = 0xFEFF

/-- The character class `\d`: the ten ASCII digits. -/
def isDigit (c : Char) : Bool :=
  0x30 ≤ c.toNat && c.toNat ≤ 0x39

/-- The character class `[1-9]`. -/
def isNonZeroDigit (c : Char) : Bool :=
  0x31 ≤ c.toNat && c.toNat ≤ 0x39

/-- The fragment of regular expression syntax the script uses: a character class,
a sequence, and a bounded or unbounded repetition (`?` is `{0,1}`, `+` is `{1,}`). -/
inductive Regex where
  | cls (p : Char → Bool)
  | seq (r s : Regex)
  | rep (r : Regex) (lo : Nat) (hi : Option Nat)

/-- All the remainders reachable from `w` by applying `step` at least `lo` and at
most `hi` times in a row. -/
def repeatStep (step : List Char → List (List Char)) :
    Nat → Nat → List Char → List (List Char)
  | lo, 0, w => if lo = 0 then [w] else []
  | lo, hi + 1, w =>
    (if lo = 0 then [w] else []) ++ (step w).flatMap (repeatStep step (lo - 1) hi)

/-- Backtracking matcher: every remainder of `w` left after the expression has
matched a prefix of `w`. An unbounded repetition on `w` needs at most
`w.length + 1` rounds, since a round that consumes nothing reaches nothing new. -/
def Regex.run : Regex → List Char → List (List Char)
  | .cls _, [] => []
  | .cls p, c :: t => if p c then [t] else []
  | .seq r s, w => (Regex.run r w).flatMap (Regex.run s)
  | .rep r lo (some hi), w => repeatStep (Regex.run r) lo hi w
  | .rep r lo none, w => repeatStep (Regex.run r) lo (w.length + 1) w

/-- The method `test` of an expression anchored with `^` and `$` and without flags:
the whole input is matched. -/
def Regex.test (r : Regex) (s : String) : Bool :=
  (Regex.run r s.data).contains []

/-- The class `[^\s@]`. -/
def notSpaceNorAt (c : Char) : Bool :=
  !(isWhitespace c || c == '@')

/-- The expression `/^[^\s@]+@[^\s@]+\.[^\s@]+$/`. -/
def emailRegex : Regex :=
  .seq (.rep (.cls notSpaceNorAt) 1 none)
    (.seq (.cls (fun c => c == '@'))
      (.seq (.rep (.cls notSpaceNorAt) 1 none)
        (.seq (.cls (fun c => c == '.'))
          (.rep (.cls notSpaceNorAt) 1 none))))

/-- The expression `/^[\+]?[1-9][\d]{0,15}$/`. -/
def phoneRegex : Regex :=
  .seq (.rep (.cls (fun c => c == '+')) 0 (some 1))
    (.seq (.cls isNonZeroDigit)
      (.rep (.cls isDigit) 0 (some 15)))

/-- The class `[\s\-\(\)\.]` whose occurrences `isValidPhone` deletes. -/
def isPhoneSeparator (c : Char) : Bool :=
  isWhitespace c || c == '-' || c == '(' || c == ')' || c == '.'

/-- The result of `phone.replace(/[\s\-\(\)\.]/g, '')`. -/
def cleanPhone (phone : String) : String :=
  String.mk (phone.data.filter (fun c => !isPhoneSeparator c))

/-- Source lines 214-217. -/
def isValidEmail (email : String) : Bool :=
  Regex.test emailRegex email

/-- Source lines 219-223. -/
def isValidPhone (phone : String) : Bool :=
  decide ((cleanPhone phone).length ≥ 10) && Regex.test phoneRegex (cleanPhone phone)

/-! ## The shapes the specification describes -/

/-- The part of an address before its first `@`. -/
def localPart (e : String) : List Char :=
  e.data.takeWhile (fun c => c != '@')

/-- The part of an address after its first `@`. -/
def domainPart (e : String) : List Char :=
  (e.data.dropWhile (fun c => c != '@')).drop 1

/-- The email shape in the words of the specification: no white space, exactly one
`@`, a non-empty part on each side of it, and a `.` in the part after it. -/
def emailShapeSpec (e : String) : Bool :=
  e.data.all (fun c => !isWhitespace c) && e.data.count '@' == 1 &&
    !(localPart e).isEmpty && !(domainPart e).isEmpty && (domainPart e).contains '.'

/-- The email shape the expression accepts: as `emailShapeSpec`, but the `.` of the
part after the `@` is neither the first nor the last character of that part. -/
def emailShapeAmended (e : String) : Bool :=
  e.data.all (fun c => !isWhitespace c) && e.data.count '@' == 1 &&
    !(localPart e).isEmpty && !(domainPart e).isEmpty &&
    ((domainPart e).drop 1).dropLast.contains '.'

/-- The characters left once an optional leading `+` is taken away. -/
def dropPlus : List Char → List Char
  | [] => []
  | c :: t => if c == '+' then t else c :: t

/-- Whether the first character of the list is one of `1` to `9`. -/
def headIsNonZeroDigit : List Char → Bool
  | [] => false
  | c :: _ => isNonZeroDigit c

/-- The phone shape in the words of the specification: once every space, hyphen,
parenthesis and dot is removed, an optional leading `+`, then only digits, the first
of them `1` to `9`, between 10 and 16 digits in all. -/
def phoneShapeSpec (p : String) : Bool :=
  let rest := p.data.filter
    (fun c => !(c == ' ' || c == '-' || c == '(' || c == ')' || c == '.'))
  let digits := dropPlus rest
  digits.all isDigit && headIsNonZeroDigit digits &&
    decide (10 ≤ digits.length) && decide (digits.length ≤ 16)

/-- The phone shape the code accepts: as `phoneShapeSpec`, but every white space
character is removed, not the space alone, and the lower bound 10 is on the number
of characters left after the removal, the `+` counted. -/
def phoneShapeAmended (p : String) : Bool :=
  let rest := p.data.filter
    (fun c => !(isWhitespace c || c == '-' || c == '(' || c == ')' || c == '.'))
  let digits := dropPlus rest
  digits.all isDigit && headIsNonZeroDigit digits &&
    decide (10 ≤ rest.length) && decide (digits.length ≤ 16)

/-! ## The page: banners, timers, form -/

/-- The `div` that `showNotification` creates. Of its inline style only the two
properties the script writes again later are kept: `transform` and `background`. -/
structure Banner where
  id : Nat
  className : String
  textContent : String
  transform : String
  background : String
deriving DecidableEq

/-- An `option` element of the page: its `value` attribute, if it has one, and its
text. -/
structure OptionElement where
  valueAttribute : Option String
  textContent : String
deriving DecidableEq

/-- The ASCII whitespace of the HTML standard: tab, line feed, form feed, carriage
return and space. -/
def isAsciiWhitespace (c : Char) : Bool :=
  c.toNat = 0x09 || c.toNat = 0x0A || c.toNat = 0x0C || c.toNat = 0x0D || c.toNat = 0x20

/-- Every run of ASCII whitespace replaced by a single space. -/
def collapseWhitespace : List Char → List Char
  | [] => []
  | c :: t =>
    if isAsciiWhitespace c then ' ' :: (collapseWhitespace t).dropWhile (fun d => d == ' ')
    else c :: collapseWhitespace t

/-- Strip and collapse ASCII whitespace, as the HTML standard does for the text of
an option. -/
def stripAndCollapse (s : String) : String :=
  String.mk
    (((collapseWhitespace s.data).dropWhile (fun d => d == ' ')).reverse.dropWhile
      (fun d => d == ' ')).reverse

/-- The property `value` of an option element, which is what the form submits for
it: the `value` attribute when there is one, else the text, stripped and collapsed. -/
def OptionElement.value (o : OptionElement) : String :=
  match o.valueAttribute with
  | some v => v
  | none => stripAndCollapse o.textContent

/-- The five named fields of the contact form. -/
structure FormFields where
  name : String
  email : String
  phone : String
  vehicle : String
  message : String
deriving DecidableEq

/-- The callbacks the script hands to `setTimeout`. -/
inductive Action where
  /-- Lines 264-266: slide the banner in. -/
  | slideIn (id : Nat)
  /-- Lines 269-274: slide the banner out and schedule its removal. -/
  | slideOut (id : Nat)
  /-- Lines 271-273: remove the banner. -/
  | remove (id : Nat)
  /-- Lines 135-141: one tick of the typing effect. -/
  | typeWriter
deriving DecidableEq

/-- A pending timer: the time it is due at, in milliseconds, and its callback. -/
structure Timer where
  fireAt : Nat
  action : Action
deriving DecidableEq

/-- A JavaScript string as the sequence of its UTF-16 code units, the units that
`length` counts and `charAt` indexes. -/
abbrev CodeUnits := List Nat

/-- The UTF-16 code units of a text: one unit for a character of the Basic
Multilingual Plane, a surrogate pair for any other. -/
def utf16 (s : String) : CodeUnits :=
  s.data.flatMap (fun c =>
    if c.toNat < 0x10000 then [c.toNat]
    else [0xD800 + (c.toNat - 0x10000) / 0x400, 0xDC00 + (c.toNat - 0x10000) % 0x400])

/-- The state of the page the script reads and writes. `options` and
`formDefaults` come from the markup; `nextId` numbers the created elements. -/
structure Page where
  now : Nat
  timers : List Timer
  nextId : Nat
  body : List Banner
  options : List OptionElement
  formDefaults : FormFields
  form : FormFields
  originalText : CodeUnits
  heroTitle : CodeUnits
  i : Nat

def successGradient : String := "linear-gradient(135deg, #27ae60, #2ecc71)"

def errorGradient : String := "linear-gradient(135deg, #e74c3c, #c0392b)"

def infoGradient : String := "linear-gradient(135deg, #ff6b35, #e55a2b)"

/-- The `switch` of lines 249-258. -/
def backgroundFor (type : String) : String :=
  if type = "success" then successGradient
  else if type = "error" then errorGradient
  else infoGradient

/-- The element lines 227-258 build; an omitted `type` defaults to `info`. -/
def newBanner (id : Nat) (message : String) (type : Option String) : Banner :=
  { id := id
    className := "notification " ++ type.getD "info"
    textContent := message
    transform := "translateX(400px)"
    background := backgroundFor (type.getD "info") }

/-- Source lines 225-275: append the banner to the body and start its two timers. -/
def showNotification (message : String) (type : Option String) (w : Page) : Page :=
  { w with
    nextId := w.nextId + 1
    body := w.body ++ [newBanner w.nextId message type]
    timers := w.timers ++
      [⟨w.now + 100, .slideIn w.nextId⟩, ⟨w.now + 4000, .slideOut w.nextId⟩] }

/-- Assign `notification.style.transform` on the banner with the given identity. -/
def setTransform (id : Nat) (value : String) (body : List Banner) : List Banner :=
  body.map (fun b => if b.id = id then { b with transform := value } else b)

/-- The method `charAt`: the code unit at index `i` as a string of length one, the
empty string out of range. -/
def charAt (s : CodeUnits) (i : Nat) : CodeUnits :=
  (s.drop i).take 1

/-- Source line 133: the delay between two ticks of the typing effect, in ms. -/
def typingSpeed : Nat := 80

/-- Source lines 135-141. -/
def typeWriter (w : Page) : Page :=
  if w.i < w.originalText.length then
    { w with
      heroTitle := w.heroTitle ++ charAt w.originalText w.i
      i := w.i + 1
      timers := w.timers ++ [⟨w.now + typingSpeed, .typeWriter⟩] }
  else w

/-- Run one timer callback. -/
def fire (a : Action) (w : Page) : Page :=
  match a with
  | .slideIn id => { w with body := setTransform id "translateX(0)" w.body }
  | .slideOut id =>
    { w with
      body := setTransform id "translateX(400px)" w.body
      timers := w.timers ++ [⟨w.now + 300, .remove id⟩] }
  | .remove id => { w with body := w.body.filter (fun b => b.id ≠ id) }
  | .typeWriter => typeWriter w

/-- The timer the event loop runs next when the clock reaches `t`: the first
registered among those with the least due time, if that time has come. -/
def nextTimer (t : Nat) (timers : List Timer) : Option Timer :=
  timers.find? (fun x =>
    decide (x.fireAt ≤ t) && timers.all (fun y => decide (x.fireAt ≤ y.fireAt)))

/-- Take the timer off the queue and run its callback at its nominal due time. -/
def fireTimer (x : Timer) (w : Page) : Page :=
  fire x.action { w with now := x.fireAt, timers := w.timers.erase x }

/-- Let the clock advance to `t`, running every timer that comes due on the way, in
order. `none` when `fuel` callbacks were not enough. -/
def runUntil : Nat → Nat → Page → Option Page
  | 0, t, w =>
    match nextTimer t w.timers with
    | none => some { w with now := max w.now t }
    | some _ => none
  | fuel + 1, t, w =>
    match nextTimer t w.timers with
    | none => some { w with now := max w.now t }
    | some x => runUntil fuel t (fireTimer x w)

/-- The number of callbacks a pending timer can still cause, itself included. -/
def Action.weight (w : Page) : Action → Nat
  | .slideIn _ => 1
  | .slideOut _ => 2
  | .remove _ => 1
  | .typeWriter => w.originalText.length - w.i + 1

/-- A bound on the number of callbacks the pending timers can still cause. -/
def potential (w : Page) : Nat :=
  (w.timers.map (fun x => x.action.weight w)).sum

/-- Source lines 128-144: keep the heading text, empty the heading and start the
typing effect. -/
def startTyping (w : Page) : Page :=
  { w with
    originalText := w.heroTitle
    heroTitle := []
    i := 0
    timers := w.timers ++ [⟨w.now + 800, .typeWriter⟩] }

/-- The page once the `DOMContentLoaded` listener has run, at time 0, as far as the
form, the banners and the heading go. -/
def loadedPage (heading : CodeUnits) (options : List OptionElement)
    (defaults : FormFields) : Page :=
  startTyping
    { now := 0, timers := [], nextId := 0, body := [], options := options
      formDefaults := defaults, form := defaults
      originalText := [], heroTitle := heading, i := 0 }

/-- How the submit handler ends: normally; with the `TypeError` of reading
`textContent` of `null`; or in a way this model does not determine, when the spliced
selector of line 86 is not the plain attribute selector (see `selectorSafe`). -/
inductive Completion where
  | normal
  | typeError
  | unmodelled
deriving DecidableEq

/-- Whether a value can be spliced between the quotes of `option[value="..."]`
and read back unchanged: it holds no double quote, no backslash, no line feed, form
feed or carriage return, and no NUL. With any of these the selector is another one
than intended, or none at all. -/
def selectorSafe (value : String) : Bool :=
  value.data.all (fun c =>
    !(c.toNat = 0x22 || c.toNat = 0x5C || c.toNat = 0x0A || c.toNat = 0x0C ||
      c.toNat = 0x0D || c.toNat = 0x00))

/-- What `document.querySelector` answers. -/
inductive QueryResult where
  /-- The first matching element. -/
  | element (o : OptionElement)
  /-- No element matches. -/
  | null
  /-- The selector is not one this model reads: the call throws `SyntaxError` or
  answers for another selector. -/
  | unmodelled
deriving DecidableEq

/-- The call `document.querySelector` with the selector line 86 builds by splicing
the value into `option[value="..."]`. For a value that is safe to splice, the first
option in document order whose `value` attribute is that value, if any. -/
def querySelectorOption (options : List OptionElement) (value : String) : QueryResult :=
  if selectorSafe value then
    match options.find? (fun o => o.valueAttribute == some value) with
    | some o => .element o
    | none => .null
  else .unmodelled

/-- Line 86: the label of the chosen vehicle, or how the handler ends without one:
reading `textContent` of `null` throws. -/
def vehicleName (options : List OptionElement) (vehicle : String) :
    Except Completion String :=
  if vehicle = "other" then .ok "your selected vehicle"
  else
    match querySelectorOption options vehicle with
    | .element o => .ok o.textContent
    | .null => .error .typeError
    | .unmodelled => .error .unmodelled

/-- The method `reset` of the form: every field back to its value in the markup. -/
def resetForm (w : Page) : Page :=
  { w with form := w.formDefaults }

/-- Line 87: the text of the confirmation. -/
def thankYou (name label : String) : String :=
  "Thank you " ++ name ++ "! We'll contact you soon to schedule a test drive for the " ++
    label ++ "."

/-- Source lines 58-89: the submit handler of the contact form. When it ends as
`unmodelled` the page is handed back as it was and stands for no statement about
the real page. -/
def contactFormSubmit (w : Page) : Page × Completion :=
  let name := w.form.name
  let email := w.form.email
  let phone := w.form.phone
  let vehicle := w.form.vehicle
  if name = "" ∨ email = "" ∨ phone = "" ∨ vehicle = "" then
    (showNotification "Please fill in all required fields!" (some "error") w, .normal)
  else if ¬ isValidEmail email = true then
    (showNotification "Please enter a valid email address!" (some "error") w, .normal)
  else if ¬ isValidPhone phone = true then
    (showNotification "Please enter a valid phone number!" (some "error") w, .normal)
  else
    match vehicleName w.options vehicle with
    | .error completion => (w, completion)
    | .ok label =>
      (resetForm (showNotification (thankYou name label) (some "success") w), .normal)

/-! ## Predicates on pages -/

/-- Whether the callback belongs to the banner numbered `n`. -/
def Action.isFor (n : Nat) : Action → Bool
  | .slideIn id => decide (id = n)
  | .slideOut id => decide (id = n)
  | .remove id => decide (id = n)
  | .typeWriter => false

/-- Whether the callback belongs to a banner numbered below `n`, or to none. -/
def Action.isBelow (n : Nat) : Action → Bool
  | .slideIn id => decide (id < n)
  | .slideOut id => decide (id < n)
  | .remove id => decide (id < n)
  | .typeWriter => true

/-- Every banner in the page or named by a pending timer was numbered by an
earlier call: its number is below `nextId`. -/
def Page.wellFormed (w : Page) : Bool :=
  w.body.all (fun b => decide (b.id < w.nextId)) &&
    w.timers.all (fun x => x.action.isBelow w.nextId)

/-- Where the banner numbered `n`, created at time `T` with the text `msg`, stands
in a run up to time `t`: its slide-out is due at `T + 4000` and its removal at
`T + 4300`; it is in the page unless `T + 4300` has come; and while it is in the
page one of these two timers is pending. -/
def Lifecycle (n : Nat) (msg : String) (T t : Nat) (w : Page) : Prop :=
  (∀ x ∈ w.timers, x.action = .slideOut n → x.fireAt = T + 4000) ∧
  (∀ x ∈ w.timers, x.action = .remove n → x.fireAt = T + 4300) ∧
  ((∃ b ∈ w.body, b.id = n ∧ b.textContent = msg) ∨ T + 4300 ≤ t) ∧
  ((∃ b ∈ w.body, b.id = n) →
    ∃ x ∈ w.timers, x.action = .slideOut n ∨ x.action = .remove n)

/-- The page `v` is the page `u` without the banner numbered `n` and its timers;
the clock and the numbering are left aside. -/
def Without (n : Nat) (u v : Page) : Prop :=
  v.timers = u.timers.filter (fun x => !x.action.isFor n) ∧
  v.body = u.body.filter (fun b => decide (b.id ≠ n)) ∧
  v.originalText = u.originalText ∧ v.heroTitle = u.heroTitle ∧ v.i = u.i ∧
  v.form = u.form ∧ v.formDefaults = u.formDefaults ∧ v.options = u.options

/-! ## Reveal on scroll -/

/-- The three inline style properties the reveal and hover code writes. -/
structure Style where
  opacity : String
  transform : String
  transition : String
deriving DecidableEq

/-- The inline styles of the observed elements, by element. -/
abbrev Styles := Nat → Style

/-- An entry handed to the intersection callback. -/
structure Entry where
  target : Nat
  isIntersecting : Bool
deriving DecidableEq

/-- Source lines 120-125, for one element. -/
def hide (s : Style) : Style :=
  { s with
    opacity := "0"
    transform := "translateY(30px)"
    transition := "opacity 0.6s ease, transform 0.6s ease" }

/-- Source lines 111-114, for one entry. -/
def reveal (entry : Entry) (d : Styles) : Styles :=
  if entry.isIntersecting then
    Function.update d entry.target
      { d entry.target with opacity := "1", transform := "translateY(0)" }
  else d

/-- Source lines 109-116: the intersection callback. -/
def observerCallback (entries : List Entry) (d : Styles) : Styles :=
  entries.foldl (fun d entry => reveal entry d) d

/-- What can happen to the observed elements after set-up. The hover listeners of
lines 158-167 are on the elements of class `car-card` only. -/
inductive RevealEvent where
  | intersection (entries : List Entry)
  | mouseenter (target : Nat)
  | mouseleave (target : Nat)

/-- One event; `carCard` tells which observed elements have the class `car-card`. -/
def revealStep (carCard : Nat → Bool) (d : Styles) : RevealEvent → Styles
  | .intersection entries => observerCallback entries d
  | .mouseenter x =>
    if carCard x then
      Function.update d x { d x with transform := "translateY(-10px) scale(1.02)" }
    else d
  | .mouseleave x =>
    if carCard x then
      Function.update d x { d x with transform := "translateY(0) scale(1)" }
    else d

/-- A sequence of events, in order. -/
def revealRun (carCard : Nat → Bool) (events : List RevealEvent) (d : Styles) : Styles :=
  events.foldl (revealStep carCard) d

/-! ## Sample pages -/

/-- A page with one vehicle option and empty form defaults, its form filled in. -/
def samplePage (form : FormFields) : Page :=
  { loadedPage (utf16 "Drive") [⟨some "sedan", "Family Sedan"⟩] ⟨"", "", "", "", ""⟩ with
    form := form }

/-- A page whose chosen vehicle has no `option` element carrying it as `value`. -/
def pageWithoutOption : Page :=
  { loadedPage (utf16 "Drive") [⟨some "sedan", "Family Sedan"⟩] ⟨"", "", "", "", ""⟩ with
    form := ⟨"Ann", "ann@example.com", "5551234567", "coupe", ""⟩ }

/-- A page whose vehicle list is `<option>Coupe</option>`, an option without a
`value` attribute, chosen in a valid submission: the form submits its text. -/
def pageWithBareOption : Page :=
  { loadedPage (utf16 "Drive") [⟨none, "Coupe"⟩] ⟨"", "", "", "", ""⟩ with
    form := ⟨"Eve", "eve@example.com", "5551234567", "Coupe", ""⟩ }

/-- A page whose vehicle list has no placeholder, so that its first option, "sedan",
is the default of the field; the form is filled in with valid values and "other". -/
def pageWithDefaultVehicle : Page :=
  { loadedPage (utf16 "Drive") [⟨some "sedan", "Family Sedan"⟩, ⟨some "other", "Other"⟩]
      ⟨"", "", "", "sedan", ""⟩ with
    form := ⟨"Bob", "bob@example.org", "+15551234567", "other", "Call me"⟩ }

/-- The observed elements right after the set-up of lines 119-125. -/
def hiddenStyles : Styles :=
  fun _ => hide ⟨"", "", ""⟩

/-- A car card that was revealed, then hovered and left, then scrolled out of view. -/
def hoveredStyles : Styles :=
  revealRun (fun _ => true)
    [.intersection [⟨0, true⟩], .mouseenter 0, .mouseleave 0, .intersection [⟨0, false⟩]]
    hiddenStyles

/-! ## Lemmas on the matcher -/

theorem run_cls_nil (p : Char → Bool) : Regex.run (.cls p) [] = [] := rfl

theorem run_cls_cons (p : Char → Bool) (c : Char) (t : List Char) :
    Regex.run (.cls p) (c :: t) = if p c then [t] else [] := rfl

theorem mem_run_cls (p : Char → Bool) (w t : List Char) :
    t ∈ Regex.run (.cls p) w ↔ ∃ c, w = c :: t ∧ p c = true := by
  cases w with
  | nil => simp [run_cls_nil]
  | cons c u =>
    rw [run_cls_cons]
    by_cases h : p c = true
    · simp only [h, if_true, List.mem_singleton]
      constructor
      · rintro rfl
        exact ⟨c, rfl, h⟩
      · rintro ⟨d, hd, _⟩
        simp only [List.cons.injEq] at hd
        exact hd.2.symm
    · constructor
      · intro hh
        simp [h] at hh
      · rintro ⟨d, hd, hp⟩
        simp only [List.cons.injEq] at hd
        rw [← hd.1] at hp
        exact absurd hp h

theorem mem_run_seq (r s : Regex) (w t : List Char) :
    t ∈ Regex.run (.seq r s) w ↔ ∃ m, m ∈ Regex.run r w ∧ t ∈ Regex.run s m := by
  simp [Regex.run, List.mem_flatMap]

/-- Repeating a character class: the remainders are those left after a run of
between `lo` and `hi` characters of the class. -/
theorem mem_repeatStep_cls (p : Char → Bool) (hi : Nat) :
    ∀ (lo : Nat) (w t : List Char),
      t ∈ repeatStep (Regex.run (.cls p)) lo hi w ↔
        ∃ pre, w = pre ++ t ∧ lo ≤ pre.length ∧ pre.length ≤ hi ∧ ∀ c ∈ pre, p c = true := by
  induction hi with
  | zero =>
    intro lo w t
    simp only [repeatStep]
    constructor
    · intro h
      by_cases hlo : lo = 0
      · simp only [hlo, if_true, List.mem_singleton] at h
        exact ⟨[], by simp [h], by simp [hlo], by simp, by simp⟩
      · simp [hlo] at h
    · rintro ⟨pre, hw, hlo, hhi, _⟩
      have hpre : pre = [] := List.eq_nil_of_length_eq_zero (Nat.le_zero.mp hhi)
      subst hpre
      have hlo0 : lo = 0 := by simpa using hlo
      simp [hlo0, hw]
  | succ hi ih =>
    intro lo w t
    simp only [repeatStep, List.mem_append, List.mem_flatMap]
    constructor
    · rintro (h | ⟨m, hm, ht⟩)
      · by_cases hlo : lo = 0
        · simp only [hlo, if_true, List.mem_singleton] at h
          exact ⟨[], by simp [h], by simp [hlo], by simp, by simp⟩
        · simp [hlo] at h
      · obtain ⟨c, hc, hpc⟩ := (mem_run_cls p w m).mp hm
        obtain ⟨pre, hpre, h1, h2, h3⟩ := (ih (lo - 1) m t).mp ht
        refine ⟨c :: pre, by simp [hc, hpre], ?_, ?_, ?_⟩
        · simp only [List.length_cons]; omega
        · simp only [List.length_cons]; omega
        · intro d hd
          rcases List.mem_cons.mp hd with rfl | hd
          · exact hpc
          · exact h3 d hd
    · rintro ⟨pre, hw, hlo, hhi, hall⟩
      cases pre with
      | nil =>
        left
        have hlo0 : lo = 0 := by simpa using hlo
        simp [hlo0, hw]
      | cons c pre =>
        right
        refine ⟨pre ++ t, (mem_run_cls p w (pre ++ t)).mpr ⟨c, by simp [hw], hall c (by simp)⟩, ?_⟩
        refine (ih (lo - 1) (pre ++ t) t).mpr ⟨pre, rfl, ?_, ?_, ?_⟩
        · simp only [List.length_cons] at hlo; omega
        · simp only [List.length_cons] at hhi; omega
        · intro d hd
          exact hall d (List.mem_cons_of_mem c hd)

theorem mem_run_rep_some (p : Char → Bool) (lo hi : Nat) (w t : List Char) :
    t ∈ Regex.run (.rep (.cls p) lo (some hi)) w ↔
      ∃ pre, w = pre ++ t ∧ lo ≤ pre.length ∧ pre.length ≤ hi ∧ ∀ c ∈ pre, p c = true := by
  simp only [Regex.run]
  exact mem_repeatStep_cls p hi lo w t

theorem mem_run_rep_none (p : Char → Bool) (lo : Nat) (w t : List Char) :
    t ∈ Regex.run (.rep (.cls p) lo none) w ↔
      ∃ pre, w = pre ++ t ∧ lo ≤ pre.length ∧ ∀ c ∈ pre, p c = true := by
  simp only [Regex.run]
  rw [mem_repeatStep_cls]
  constructor
  · rintro ⟨pre, h1, h2, _, h4⟩
    exact ⟨pre, h1, h2, h4⟩
  · rintro ⟨pre, h1, h2, h4⟩
    refine ⟨pre, h1, h2, ?_, h4⟩
    rw [h1, List.length_append]
    omega

theorem mem_run_emailRegex (w : List Char) :
    [] ∈ Regex.run emailRegex w ↔
      ∃ a b c, w = a ++ '@' :: (b ++ '.' :: c) ∧ a ≠ [] ∧ b ≠ [] ∧ c ≠ [] ∧
        (∀ x ∈ a, notSpaceNorAt x = true) ∧ (∀ x ∈ b, notSpaceNorAt x = true) ∧
        (∀ x ∈ c, notSpaceNorAt x = true) := by
  unfold emailRegex
  simp only [mem_run_seq, mem_run_rep_none, mem_run_cls]
  constructor
  · rintro ⟨m1, ⟨a, hw, ha, hpa⟩, m2, ⟨x, hm1, hx⟩, m3, ⟨b, hm2, hb, hpb⟩, m4, ⟨y, hm3, hy⟩,
      c, hm4, hc, hpc⟩
    have hx' : x = '@' := by simpa using hx
    have hy' : y = '.' := by simpa using hy
    have hm4' : m4 = c := by simpa using hm4
    subst hx' hy' hm4'
    refine ⟨a, b, m4, ?_, ?_, ?_, ?_, hpa, hpb, hpc⟩
    · rw [hw, hm1, hm2, hm3]
    · intro h; simp [h] at ha
    · intro h; simp [h] at hb
    · intro h; simp [h] at hc
  · rintro ⟨a, b, c, hw, ha, hb, hc, hpa, hpb, hpc⟩
    refine ⟨'@' :: (b ++ '.' :: c), ⟨a, hw, ?_, hpa⟩, b ++ '.' :: c, ⟨'@', rfl, by simp⟩,
      '.' :: c, ⟨b, rfl, ?_, hpb⟩, c, ⟨'.', rfl, by simp⟩, c, by simp, ?_, hpc⟩
    · exact List.length_pos.mpr ha
    · exact List.length_pos.mpr hb
    · exact List.length_pos.mpr hc

theorem notSpaceNorAt_iff (x : Char) :
    notSpaceNorAt x = true ↔ isWhitespace x = false ∧ x ≠ '@' := by
  simp [notSpaceNorAt]

theorem takeWhile_ne_append_cons (a r : List Char) (x : Char) (h : x ∉ a) :
    (a ++ x :: r).takeWhile (fun c => c != x) = a := by
  induction a with
  | nil => simp [List.takeWhile]
  | cons y a ih =>
    have hy : y ≠ x := fun e => h (by simp [e])
    have ha : x ∉ a := fun e => h (List.mem_cons_of_mem y e)
    have hy' : (y != x) = true := by simpa using hy
    rw [List.cons_append, List.takeWhile_cons, if_pos hy', ih ha]

theorem dropWhile_ne_append_cons (a r : List Char) (x : Char) (h : x ∉ a) :
    (a ++ x :: r).dropWhile (fun c => c != x) = x :: r := by
  induction a with
  | nil => simp [List.dropWhile]
  | cons y a ih =>
    have hy : y ≠ x := fun e => h (by simp [e])
    have ha : x ∉ a := fun e => h (List.mem_cons_of_mem y e)
    have hy' : (y != x) = true := by simpa using hy
    rw [List.cons_append, List.dropWhile_cons, if_pos hy', ih ha]

theorem not_mem_takeWhile_ne (l : List Char) (x : Char) :
    x ∉ l.takeWhile (fun c => c != x) := by
  intro h
  have := List.mem_takeWhile_imp h
  simp at this

/-- A list in which `x` occurs exactly once splits around that occurrence. -/
theorem split_of_count_eq_one (l : List Char) (x : Char) (h : l.count x = 1) :
    l = l.takeWhile (fun c => c != x) ++ x :: (l.dropWhile (fun c => c != x)).drop 1 ∧
      x ∉ (l.dropWhile (fun c => c != x)).drop 1 := by
  induction l with
  | nil => simp at h
  | cons y l ih =>
    by_cases hy : y = x
    · subst hy
      have hc : l.count y = 0 := by simpa using h
      simp [List.takeWhile, List.dropWhile, List.count_eq_zero.mp hc]
    · have hc : l.count x = 1 := by
        rw [List.count_cons_of_ne (Ne.symm hy)] at h
        exact h
      obtain ⟨h1, h2⟩ := ih hc
      have hy' : (y != x) = true := by simpa using hy
      refine ⟨?_, ?_⟩
      · simp only [List.takeWhile, List.dropWhile, hy', List.cons_append]
        rw [← h1]
      · simpa only [List.dropWhile, hy'] using h2

/-- The decomposition the email expression matches, in terms of the first `@`. -/
theorem email_split_iff (l : List Char) :
    (∃ a b c, l = a ++ '@' :: (b ++ '.' :: c) ∧ a ≠ [] ∧ b ≠ [] ∧ c ≠ [] ∧
        (∀ x ∈ a, notSpaceNorAt x = true) ∧ (∀ x ∈ b, notSpaceNorAt x = true) ∧
        (∀ x ∈ c, notSpaceNorAt x = true)) ↔
      ((∀ x ∈ l, isWhitespace x = false) ∧ l.count '@' = 1 ∧
        l.takeWhile (fun c => c != '@') ≠ [] ∧
        (l.dropWhile (fun c => c != '@')).drop 1 ≠ [] ∧
        '.' ∈ (((l.dropWhile (fun c => c != '@')).drop 1).drop 1).dropLast) := by
  constructor
  · rintro ⟨a, b, c, hl, ha, hb, hc, hpa, hpb, hpc⟩
    have hna : '@' ∉ a := fun h => ((notSpaceNorAt_iff _).mp (hpa _ h)).2 rfl
    have hnb : '@' ∉ b := fun h => ((notSpaceNorAt_iff _).mp (hpb _ h)).2 rfl
    have hnc : '@' ∉ c := fun h => ((notSpaceNorAt_iff _).mp (hpc _ h)).2 rfl
    have hdrop : (l.dropWhile (fun c => c != '@')).drop 1 = b ++ '.' :: c := by
      rw [hl, dropWhile_ne_append_cons a _ '@' hna]
      rfl
    refine ⟨?_, ?_, ?_, ?_, ?_⟩
    · intro x hx
      rw [hl] at hx
      simp only [List.mem_append, List.mem_cons] at hx
      rcases hx with h | rfl | h | rfl | h
      · exact ((notSpaceNorAt_iff _).mp (hpa _ h)).1
      · decide
      · exact ((notSpaceNorAt_iff _).mp (hpb _ h)).1
      · decide
      · exact ((notSpaceNorAt_iff _).mp (hpc _ h)).1
    · rw [hl]
      simp [List.count_append, List.count_cons, List.count_eq_zero.mpr hna,
        List.count_eq_zero.mpr hnb, List.count_eq_zero.mpr hnc]
    · rw [hl, takeWhile_ne_append_cons a _ '@' hna]
      exact ha
    · rw [hdrop]
      simp
    · rw [hdrop]
      cases b with
      | nil => exact absurd rfl hb
      | cons b0 b1 =>
        have h1 : '.' :: c ≠ [] := by simp
        rw [List.cons_append, List.drop_one, List.tail_cons,
          List.dropLast_append_of_ne_nil _ h1, List.dropLast_cons_of_ne_nil hc]
        simp
  · rintro ⟨hws, hcount, hloc, hdom, hdot⟩
    obtain ⟨hsplit, hnat⟩ := split_of_count_eq_one l '@' hcount
    generalize hd : (l.dropWhile (fun c => c != '@')).drop 1 = dom at hsplit hnat hdom hdot
    generalize ha : l.takeWhile (fun c => c != '@') = a at hsplit hloc
    have hnata : '@' ∉ a := by
      rw [← ha]
      exact not_mem_takeWhile_ne l '@'
    cases dom with
    | nil => exact absurd rfl hdom
    | cons d0 t =>
      rw [List.drop_one, List.tail_cons] at hdot
      have ht : t ≠ [] := by
        intro h
        rw [h] at hdot
        simp at hdot
      obtain ⟨m1, m2, hm⟩ := List.append_of_mem hdot
      have ht' : t = m1 ++ '.' :: (m2 ++ [t.getLast ht]) := by
        conv_lhs => rw [← List.dropLast_append_getLast ht, hm]
        simp
      have hmem : ∀ x, x ∈ d0 :: t → notSpaceNorAt x = true := by
        intro x hx
        refine (notSpaceNorAt_iff x).mpr ⟨hws x ?_, ?_⟩
        · rw [hsplit]
          simp only [List.mem_append, List.mem_cons]
          right; right
          simpa using hx
        · rintro rfl
          exact hnat hx
      have hmema : ∀ x, x ∈ a → notSpaceNorAt x = true := by
        intro x hx
        refine (notSpaceNorAt_iff x).mpr ⟨hws x ?_, ?_⟩
        · rw [hsplit]
          exact List.mem_append_left _ hx
        · rintro rfl
          exact hnata hx
      refine ⟨a, d0 :: m1, m2 ++ [t.getLast ht], ?_, hloc, by simp, by simp, hmema, ?_, ?_⟩
      · rw [hsplit]
        conv_lhs => rw [ht']
        simp
      · intro x hx
        apply hmem
        rw [ht']
        simp only [List.mem_cons, List.mem_append] at hx ⊢
        rcases hx with h | h
        · exact Or.inl h
        · exact Or.inr (Or.inl h)
      · intro x hx
        apply hmem
        rw [ht']
        simp only [List.mem_cons, List.mem_append] at hx ⊢
        right; right; right
        simpa using hx

theorem mem_run_phoneRegex (w : List Char) :
    [] ∈ Regex.run phoneRegex w ↔
      ∃ pl d rest, w = pl ++ d :: rest ∧ pl.length ≤ 1 ∧ (∀ x ∈ pl, x = '+') ∧
        isNonZeroDigit d = true ∧ rest.length ≤ 15 ∧ ∀ x ∈ rest, isDigit x = true := by
  unfold phoneRegex
  simp only [mem_run_seq, mem_run_rep_some, mem_run_cls]
  constructor
  · rintro ⟨m1, ⟨pl, hw, _, hpl, hplus⟩, m2, ⟨d, hm1, hd⟩, rest, hm2, _, hrest, hdig⟩
    have hm2' : m2 = rest := by simpa using hm2
    subst hm2'
    refine ⟨pl, d, m2, by rw [hw, hm1], hpl, ?_, hd, hrest, hdig⟩
    intro x hx
    simpa using hplus x hx
  · rintro ⟨pl, d, rest, hw, hpl, hplus, hd, hrest, hdig⟩
    refine ⟨d :: rest, ⟨pl, hw, Nat.zero_le _, hpl, ?_⟩, rest, ⟨d, rfl, hd⟩, rest, by simp,
      Nat.zero_le _, hrest, hdig⟩
    intro x hx
    simpa using hplus x hx

theorem isDigit_of_isNonZeroDigit (c : Char) (h : isNonZeroDigit c = true) :
    isDigit c = true := by
  simp only [isNonZeroDigit, isDigit, Bool.and_eq_true, decide_eq_true_eq] at h ⊢
  omega

theorem ne_plus_of_isNonZeroDigit (c : Char) (h : isNonZeroDigit c = true) :
    (c == '+') = false := by
  by_cases hc : c = '+'
  · subst hc
    exact absurd h (by decide)
  · simpa using hc

/-- The decomposition the phone expression matches, in terms of `dropPlus`. -/
theorem phone_split_iff (w : List Char) :
    [] ∈ Regex.run phoneRegex w ↔
      ((dropPlus w).all isDigit = true ∧ headIsNonZeroDigit (dropPlus w) = true ∧
        (dropPlus w).length ≤ 16) := by
  rw [mem_run_phoneRegex]
  constructor
  · rintro ⟨pl, d, rest, hw, hpl, hplus, hd, hrest, hdig⟩
    have hdrop : dropPlus w = d :: rest := by
      cases pl with
      | nil =>
        rw [hw]
        simp [dropPlus, ne_plus_of_isNonZeroDigit d hd]
      | cons x pl =>
        have hx : x = '+' := hplus x (by simp)
        have hnil : pl = [] := by
          apply List.eq_nil_of_length_eq_zero
          simp only [List.length_cons] at hpl
          omega
        rw [hw, hx, hnil]
        simp [dropPlus]
    rw [hdrop]
    refine ⟨?_, hd, ?_⟩
    · simp only [List.all_cons, Bool.and_eq_true, List.all_eq_true]
      exact ⟨isDigit_of_isNonZeroDigit d hd, hdig⟩
    · simp only [List.length_cons]
      omega
  · rintro ⟨hall, hhead, hlen⟩
    cases hdp : dropPlus w with
    | nil =>
      rw [hdp] at hhead
      simp [headIsNonZeroDigit] at hhead
    | cons d rest =>
      rw [hdp] at hall hhead hlen
      simp only [List.all_cons, Bool.and_eq_true, List.all_eq_true] at hall
      simp only [List.length_cons] at hlen
      have hrest : rest.length ≤ 15 := by omega
      cases w with
      | nil => simp [dropPlus] at hdp
      | cons c t =>
        by_cases hc : (c == '+') = true
        · have hc' : c = '+' := by simpa using hc
          simp only [dropPlus, hc, if_true] at hdp
          exact ⟨['+'], d, rest, by simp [hc', hdp], by simp, by simp, hhead, hrest, hall.2⟩
        · simp only [dropPlus, hc] at hdp
          exact ⟨[], d, rest, by simpa using hdp, by simp, by simp, hhead, hrest, hall.2⟩

/-! ## The submit handler -/

theorem thankYou_ne_required (name label : String) :
    thankYou name label ≠ "Please fill in all required fields!" := by
  intro h
  have h2 := congrArg String.data h
  simp only [thankYou, String.data_append] at h2
  have h3 := congrArg List.head? h2
  have h4 : ("Thank you ".data ++ name.data ++
      "! We'll contact you soon to schedule a test drive for the ".data ++ label.data ++
      ".".data).head? = some 'T' := rfl
  rw [h4] at h3
  exact absurd h3 (by decide)

theorem contactFormSubmit_required (w : Page)
    (h : w.form.name = "" ∨ w.form.email = "" ∨ w.form.phone = "" ∨ w.form.vehicle = "") :
    contactFormSubmit w =
      (showNotification "Please fill in all required fields!" (some "error") w, .normal) := by
  simp only [contactFormSubmit, if_pos h]

theorem contactFormSubmit_email (w : Page)
    (h : ¬ (w.form.name = "" ∨ w.form.email = "" ∨ w.form.phone = "" ∨ w.form.vehicle = ""))
    (he : isValidEmail w.form.email = false) :
    contactFormSubmit w =
      (showNotification "Please enter a valid email address!" (some "error") w, .normal) := by
  simp only [contactFormSubmit, if_neg h, he]
  simp

theorem contactFormSubmit_phone (w : Page)
    (h : ¬ (w.form.name = "" ∨ w.form.email = "" ∨ w.form.phone = "" ∨ w.form.vehicle = ""))
    (he : isValidEmail w.form.email = true) (hp : isValidPhone w.form.phone = false) :
    contactFormSubmit w =
      (showNotification "Please enter a valid phone number!" (some "error") w, .normal) := by
  simp only [contactFormSubmit, if_neg h, he, hp]
  simp

theorem contactFormSubmit_pass (w : Page)
    (h : ¬ (w.form.name = "" ∨ w.form.email = "" ∨ w.form.phone = "" ∨ w.form.vehicle = ""))
    (he : isValidEmail w.form.email = true) (hp : isValidPhone w.form.phone = true) :
    contactFormSubmit w =
      match vehicleName w.options w.form.vehicle with
      | .error completion => (w, completion)
      | .ok label =>
        (resetForm (showNotification (thankYou w.form.name label) (some "success") w),
          .normal) := by
  simp only [contactFormSubmit, if_neg h, he, hp]
  simp

theorem querySelectorOption_of_mem (options : List OptionElement) (v : String)
    (hsafe : selectorSafe v = true) (h : ∃ o ∈ options, o.valueAttribute = some v) :
    ∃ o ∈ options, o.valueAttribute = some v ∧
      querySelectorOption options v = .element o := by
  obtain ⟨o0, ho0, hv0⟩ := h
  cases hf : options.find? (fun o => o.valueAttribute == some v) with
  | none =>
    have := List.find?_eq_none.mp hf o0 ho0
    simp [hv0] at this
  | some o =>
    have h1 := List.find?_some hf
    have h2 := List.mem_of_find?_eq_some hf
    refine ⟨o, h2, by simpa using h1, ?_⟩
    simp only [querySelectorOption, hsafe, if_true, hf]

/-- The label line 86 finds: the fixed one for "other", else the text of the first
option whose `value` attribute is the vehicle, when the vehicle is safe to splice
into the selector and some option has it. -/
theorem vehicleName_of_found (options : List OptionElement) (vehicle : String)
    (hv : vehicle = "other" ∨
      (selectorSafe vehicle = true ∧ ∃ o ∈ options, o.valueAttribute = some vehicle)) :
    ∃ label, vehicleName options vehicle = .ok label ∧
      (vehicle = "other" → label = "your selected vehicle") ∧
      (vehicle ≠ "other" → ∃ o ∈ options, o.valueAttribute = some vehicle ∧
        querySelectorOption options vehicle = .element o ∧ label = o.textContent) := by
  by_cases hother : vehicle = "other"
  · exact ⟨"your selected vehicle", by simp [vehicleName, hother], fun _ => rfl,
      fun h => absurd hother h⟩
  · rcases hv with h | ⟨hsafe, hex⟩
    · exact absurd h hother
    · obtain ⟨o, ho, hval, hq⟩ := querySelectorOption_of_mem options vehicle hsafe hex
      exact ⟨o.textContent, by simp [vehicleName, hother, hq], fun h => absurd h hother,
        fun _ => ⟨o, ho, hval, hq, rfl⟩⟩

/-- A submission that passes the three checks and whose label line 86 finds appends
exactly one banner, of class and colour success, with the text "Thank you <name>!
We'll contact you soon to schedule a test drive for the <label>.", and resets the
form. -/
theorem contactFormSubmit_of_found (w : Page)
    (hreq : ¬ (w.form.name = "" ∨ w.form.email = "" ∨ w.form.phone = "" ∨
      w.form.vehicle = ""))
    (he : isValidEmail w.form.email = true) (hp : isValidPhone w.form.phone = true)
    (hv : w.form.vehicle = "other" ∨
      (selectorSafe w.form.vehicle = true ∧
        ∃ o ∈ w.options, o.valueAttribute = some w.form.vehicle)) :
    ∃ label b,
      (w.form.vehicle = "other" → label = "your selected vehicle") ∧
      (w.form.vehicle ≠ "other" → ∃ o ∈ w.options,
        o.valueAttribute = some w.form.vehicle ∧
        querySelectorOption w.options w.form.vehicle = .element o ∧
        label = o.textContent) ∧
      (contactFormSubmit w).2 = Completion.normal ∧
      (contactFormSubmit w).1.body = w.body ++ [b] ∧
      (contactFormSubmit w).1.form = w.formDefaults ∧
      b.textContent = "Thank you " ++ w.form.name ++
        "! We'll contact you soon to schedule a test drive for the " ++ label ++ "." ∧
      b.className = "notification success" ∧
      b.background = "linear-gradient(135deg, #27ae60, #2ecc71)" := by
  obtain ⟨label, hlabel, h1, h2⟩ := vehicleName_of_found w.options w.form.vehicle hv
  rw [contactFormSubmit_pass w hreq he hp, hlabel]
  exact ⟨label, newBanner w.nextId (thankYou w.form.name label) (some "success"), h1, h2,
    rfl, rfl, rfl, rfl, rfl, rfl⟩

/-! ## Reveal on scroll -/

/-- An element is marked visible. -/
theorem reveal_apply_of_visible (e : Entry) (d : Styles) (x : Nat)
    (ho : (d x).opacity = "1") (ht : (d x).transform = "translateY(0)") :
    reveal e d x = d x := by
  unfold reveal
  by_cases hi : e.isIntersecting = true
  · rw [if_pos hi]
    by_cases hx : e.target = x
    · subst hx
      rw [Function.update_same]
      cases hs : d e.target with
      | mk o t tr =>
        rw [hs] at ho ht
        simp only at ho ht
        simp [ho, ht]
    · rw [Function.update_noteq (Ne.symm hx)]
  · rw [if_neg hi]

theorem reveal_opacity (e : Entry) (d : Styles) (x : Nat) (ho : (d x).opacity = "1") :
    (reveal e d x).opacity = "1" := by
  unfold reveal
  by_cases hi : e.isIntersecting = true
  · rw [if_pos hi]
    by_cases hx : e.target = x
    · subst hx
      rw [Function.update_same]
    · rw [Function.update_noteq (Ne.symm hx)]
      exact ho
  · rw [if_neg hi]
    exact ho

theorem reveal_apply_of_not_intersecting (e : Entry) (d : Styles) (x : Nat)
    (h : e.target = x → e.isIntersecting = false) : reveal e d x = d x := by
  unfold reveal
  by_cases hi : e.isIntersecting = true
  · rw [if_pos hi]
    have hx : e.target ≠ x := fun hx => by simp [h hx] at hi
    rw [Function.update_noteq (Ne.symm hx)]
  · rw [if_neg hi]

theorem observerCallback_cons (e : Entry) (es : List Entry) (d : Styles) :
    observerCallback (e :: es) d = observerCallback es (reveal e d) := rfl

theorem observerCallback_apply_of_visible (entries : List Entry) (x : Nat) :
    ∀ d : Styles, (d x).opacity = "1" → (d x).transform = "translateY(0)" →
      observerCallback entries d x = d x := by
  induction entries with
  | nil => intro d _ _; rfl
  | cons e es ih =>
    intro d ho ht
    have h := reveal_apply_of_visible e d x ho ht
    rw [observerCallback_cons, ih (reveal e d) (by rw [h]; exact ho) (by rw [h]; exact ht), h]

theorem observerCallback_opacity (entries : List Entry) (x : Nat) :
    ∀ d : Styles, (d x).opacity = "1" → (observerCallback entries d x).opacity = "1" := by
  induction entries with
  | nil => intro d ho; exact ho
  | cons e es ih =>
    intro d ho
    rw [observerCallback_cons]
    exact ih (reveal e d) (reveal_opacity e d x ho)

theorem observerCallback_apply_of_not_intersecting (entries : List Entry) (x : Nat) :
    ∀ d : Styles, (∀ e ∈ entries, e.target = x → e.isIntersecting = false) →
      observerCallback entries d x = d x := by
  induction entries with
  | nil => intro d _; rfl
  | cons e es ih =>
    intro d h
    rw [observerCallback_cons, ih (reveal e d) (fun e' he' => h e' (List.mem_cons_of_mem e he')),
      reveal_apply_of_not_intersecting e d x (h e (List.mem_cons_self e es))]

theorem observerCallback_marks (entries : List Entry) (x : Nat) :
    ∀ d : Styles, (⟨x, true⟩ : Entry) ∈ entries →
      (observerCallback entries d x).opacity = "1" ∧
        (observerCallback entries d x).transform = "translateY(0)" := by
  induction entries with
  | nil => intro d h; simp at h
  | cons e es ih =>
    intro d h
    rw [observerCallback_cons]
    rcases List.mem_cons.mp h with h | h
    · have ho : (reveal e d x).opacity = "1" := by
        rw [← h]
        simp [reveal]
      have ht : (reveal e d x).transform = "translateY(0)" := by
        rw [← h]
        simp [reveal]
      rw [observerCallback_apply_of_visible es x (reveal e d) ho ht]
      exact ⟨ho, ht⟩
    · exact ih (reveal e d) h

theorem revealStep_opacity (carCard : Nat → Bool) (ev : RevealEvent) (d : Styles) (x : Nat)
    (ho : (d x).opacity = "1") : (revealStep carCard d ev x).opacity = "1" := by
  cases ev with
  | intersection entries => exact observerCallback_opacity entries x d ho
  | mouseenter y =>
    simp only [revealStep]
    split
    · by_cases hy : y = x
      · subst hy
        rw [Function.update_same]
        exact ho
      · rw [Function.update_noteq (Ne.symm hy)]
        exact ho
    · exact ho
  | mouseleave y =>
    simp only [revealStep]
    split
    · by_cases hy : y = x
      · subst hy
        rw [Function.update_same]
        exact ho
      · rw [Function.update_noteq (Ne.symm hy)]
        exact ho
    · exact ho

theorem revealStep_apply_of_visible (carCard : Nat → Bool) (ev : RevealEvent) (d : Styles)
    (x : Nat) (hc : carCard x = false)
    (ho : (d x).opacity = "1") (ht : (d x).transform = "translateY(0)") :
    revealStep carCard d ev x = d x := by
  cases ev with
  | intersection entries => exact observerCallback_apply_of_visible entries x d ho ht
  | mouseenter y =>
    simp only [revealStep]
    split
    · rename_i hy
      have hne : y ≠ x := fun h => by rw [h, hc] at hy; exact absurd hy (by decide)
      rw [Function.update_noteq (Ne.symm hne)]
    · rfl
  | mouseleave y =>
    simp only [revealStep]
    split
    · rename_i hy
      have hne : y ≠ x := fun h => by rw [h, hc] at hy; exact absurd hy (by decide)
      rw [Function.update_noteq (Ne.symm hne)]
    · rfl

theorem revealRun_opacity (carCard : Nat → Bool) (events : List RevealEvent) (x : Nat) :
    ∀ d : Styles, (d x).opacity = "1" → (revealRun carCard events d x).opacity = "1" := by
  induction events with
  | nil => intro d ho; exact ho
  | cons ev evs ih =>
    intro d ho
    exact ih (revealStep carCard d ev) (revealStep_opacity carCard ev d x ho)

theorem revealRun_apply_of_visible (carCard : Nat → Bool) (events : List RevealEvent) (x : Nat)
    (hc : carCard x = false) :
    ∀ d : Styles, (d x).opacity = "1" → (d x).transform = "translateY(0)" →
      revealRun carCard events d x = d x := by
  induction events with
  | nil => intro d _ _; rfl
  | cons ev evs ih =>
    intro d ho ht
    have h := revealStep_apply_of_visible carCard ev d x hc ho ht
    have h2 := ih (revealStep carCard d ev) (by rw [h]; exact ho) (by rw [h]; exact ht)
    exact h2.trans h

/-! ## The event loop -/

theorem nextTimer_some {t : Nat} {ts : List Timer} {x : Timer} (h : nextTimer t ts = some x) :
    x ∈ ts ∧ x.fireAt ≤ t ∧ ∀ y ∈ ts, x.fireAt ≤ y.fireAt := by
  have h1 := List.find?_some h
  have h2 := List.mem_of_find?_eq_some h
  simp only [Bool.and_eq_true, decide_eq_true_eq, List.all_eq_true] at h1
  exact ⟨h2, h1.1, h1.2⟩

theorem exists_earliest (ts : List Timer) (hne : ts ≠ []) :
    ∃ x ∈ ts, ∀ y ∈ ts, x.fireAt ≤ y.fireAt := by
  induction ts with
  | nil => exact absurd rfl hne
  | cons a ts ih =>
    by_cases hts : ts = []
    · subst hts
      exact ⟨a, by simp, by simp⟩
    · obtain ⟨m, hm, hmin⟩ := ih hts
      by_cases ham : a.fireAt ≤ m.fireAt
      · refine ⟨a, by simp, ?_⟩
        intro y hy
        rcases List.mem_cons.mp hy with rfl | hy
        · exact Nat.le_refl _
        · exact Nat.le_trans ham (hmin y hy)
      · refine ⟨m, List.mem_cons_of_mem a hm, ?_⟩
        intro y hy
        rcases List.mem_cons.mp hy with rfl | hy
        · omega
        · exact hmin y hy

theorem nextTimer_none {t : Nat} {ts : List Timer} (h : nextTimer t ts = none) :
    ∀ y ∈ ts, t < y.fireAt := by
  intro y hy
  by_contra hlt
  have hne : ts ≠ [] := List.ne_nil_of_mem hy
  obtain ⟨m, hm, hmin⟩ := exists_earliest ts hne
  have h1 := List.find?_eq_none.mp h m hm
  apply h1
  simp only [Bool.and_eq_true, decide_eq_true_eq, List.all_eq_true]
  refine ⟨?_, hmin⟩
  have := hmin y hy
  omega

theorem nextTimer_eq_none_of_forall {t : Nat} {ts : List Timer} (h : ∀ y ∈ ts, t < y.fireAt) :
    nextTimer t ts = none := by
  apply List.find?_eq_none.mpr
  intro x hx hp
  simp only [Bool.and_eq_true, decide_eq_true_eq] at hp
  have := h x hx
  omega

theorem runUntil_of_none {t : Nat} {w : Page} (h : nextTimer t w.timers = none) (fuel : Nat) :
    runUntil fuel t w = some { w with now := max w.now t } := by
  cases fuel <;> simp [runUntil, h]

theorem runUntil_of_some {t : Nat} {w : Page} {x : Timer} (h : nextTimer t w.timers = some x)
    (fuel : Nat) : runUntil (fuel + 1) t w = runUntil fuel t (fireTimer x w) := by
  simp [runUntil, h]

theorem weight_pos (w : Page) (a : Action) : 1 ≤ a.weight w := by
  cases a <;> simp [Action.weight]

theorem le_potential_of_mem (w : Page) (x : Timer) (hx : x ∈ w.timers) :
    x.action.weight w ≤ potential w := by
  unfold potential
  exact List.single_le_sum (by simp) _ (List.mem_map_of_mem (fun x => x.action.weight w) hx)

theorem potential_erase (w : Page) (x : Timer) (hx : x ∈ w.timers) :
    x.action.weight w + ((w.timers.erase x).map (fun y => y.action.weight w)).sum =
      potential w :=
  List.sum_map_erase (fun y => y.action.weight w) hx

theorem weight_slideIn (w : Page) (id : Nat) : (Action.slideIn id).weight w = 1 := rfl

theorem weight_slideOut (w : Page) (id : Nat) : (Action.slideOut id).weight w = 2 := rfl

theorem weight_remove (w : Page) (id : Nat) : (Action.remove id).weight w = 1 := rfl

theorem weight_typeWriter (w : Page) :
    Action.typeWriter.weight w = w.originalText.length - w.i + 1 := rfl

theorem weight_le_of_i_le (w v : Page) (h1 : v.originalText = w.originalText) (h2 : w.i ≤ v.i)
    (a : Action) : a.weight v ≤ a.weight w := by
  cases a <;> simp [Action.weight, h1]
  omega

/-- Running a due timer uses up some of the potential. -/
theorem potential_fireTimer_lt (w : Page) (x : Timer) (hx : x ∈ w.timers) :
    potential (fireTimer x w) < potential w := by
  have herase := potential_erase w x hx
  cases hxa : x.action with
  | slideIn id =>
    rw [hxa, weight_slideIn] at herase
    have : potential (fireTimer x w) =
        ((w.timers.erase x).map (fun y => y.action.weight w)).sum := by
      simp only [fireTimer, hxa, fire, potential]
      rfl
    omega
  | slideOut id =>
    rw [hxa, weight_slideOut] at herase
    have : potential (fireTimer x w) =
        ((w.timers.erase x).map (fun y => y.action.weight w)).sum + 1 := by
      simp only [fireTimer, hxa, fire, potential, List.map_append, List.sum_append]
      rfl
    omega
  | remove id =>
    rw [hxa, weight_remove] at herase
    have : potential (fireTimer x w) =
        ((w.timers.erase x).map (fun y => y.action.weight w)).sum := by
      simp only [fireTimer, hxa, fire, potential]
      rfl
    omega
  | typeWriter =>
    rw [hxa, weight_typeWriter] at herase
    by_cases hi : w.i < w.originalText.length
    · have hle : ((w.timers.erase x).map
          (fun y => y.action.weight (fireTimer x w))).sum ≤
          ((w.timers.erase x).map (fun y => y.action.weight w)).sum := by
        apply List.sum_le_sum
        intro y _
        apply weight_le_of_i_le
        · simp [fireTimer, hxa, fire, typeWriter, typingSpeed, if_pos hi]
        · simp [fireTimer, hxa, fire, typeWriter, typingSpeed, if_pos hi]
      have hti : (fireTimer x w).timers =
          w.timers.erase x ++ [⟨x.fireAt + 80, .typeWriter⟩] := by
        simp [fireTimer, hxa, fire, typeWriter, typingSpeed, if_pos hi]
      have hw : Action.typeWriter.weight (fireTimer x w) =
          w.originalText.length - (w.i + 1) + 1 := by
        simp [fireTimer, hxa, fire, typeWriter, typingSpeed, if_pos hi, Action.weight]
      have : potential (fireTimer x w) =
          ((w.timers.erase x).map (fun y => y.action.weight (fireTimer x w))).sum +
            (w.originalText.length - (w.i + 1) + 1) := by
        unfold potential
        rw [hti, List.map_append, List.sum_append]
        simp only [List.map_cons, List.map_nil, List.sum_cons, List.sum_nil, hw]
        omega
      omega
    · have : potential (fireTimer x w) =
          ((w.timers.erase x).map (fun y => y.action.weight w)).sum := by
        simp only [fireTimer, hxa, fire, typeWriter, typingSpeed, if_neg hi, potential]
        rfl
      omega

/-- With the potential as fuel the run always comes to its end. -/
theorem runUntil_isSome (t : Nat) :
    ∀ (fuel : Nat) (w : Page), potential w ≤ fuel → ∃ w', runUntil fuel t w = some w' := by
  intro fuel
  induction fuel with
  | zero =>
    intro w hw
    cases hn : nextTimer t w.timers with
    | none => exact ⟨_, runUntil_of_none hn 0⟩
    | some x =>
      have hx := (nextTimer_some hn).1
      have h1 := le_potential_of_mem w x hx
      have h2 := weight_pos w x.action
      omega
  | succ fuel ih =>
    intro w hw
    cases hn : nextTimer t w.timers with
    | none => exact ⟨_, runUntil_of_none hn _⟩
    | some x =>
      have hx := (nextTimer_some hn).1
      have hlt := potential_fireTimer_lt w x hx
      rw [runUntil_of_some hn]
      exact ih (fireTimer x w) (by omega)

/-- More fuel does not change the result of a run. -/
theorem runUntil_mono (t : Nat) :
    ∀ (fuel : Nat) (w w' : Page), runUntil fuel t w = some w' →
      ∀ fuel', fuel ≤ fuel' → runUntil fuel' t w = some w' := by
  intro fuel
  induction fuel with
  | zero =>
    intro w w' h fuel' _
    cases hn : nextTimer t w.timers with
    | none =>
      rw [runUntil_of_none hn] at h
      rw [runUntil_of_none hn]
      exact h
    | some x => simp [runUntil, hn] at h
  | succ fuel ih =>
    intro w w' h fuel' hle
    cases hn : nextTimer t w.timers with
    | none =>
      rw [runUntil_of_none hn] at h
      rw [runUntil_of_none hn]
      exact h
    | some x =>
      rw [runUntil_of_some hn] at h
      obtain ⟨f, rfl⟩ : ∃ f, fuel' = f + 1 := ⟨fuel' - 1, by omega⟩
      rw [runUntil_of_some hn]
      exact ih (fireTimer x w) w' h f (by omega)

/-- Induction along a run: a property kept by every timer that comes due holds of
the page at the end, where no pending timer is due any more. -/
theorem runUntil_induction (t : Nat) (P : Page → Prop)
    (hstep : ∀ (w : Page) (x : Timer), P w → nextTimer t w.timers = some x →
      P (fireTimer x w)) :
    ∀ (fuel : Nat) (w w' : Page), P w → runUntil fuel t w = some w' →
      ∃ w'', P w'' ∧ nextTimer t w''.timers = none ∧ w' = { w'' with now := max w''.now t } := by
  intro fuel
  induction fuel with
  | zero =>
    intro w w' hP h
    cases hn : nextTimer t w.timers with
    | none =>
      rw [runUntil_of_none hn] at h
      exact ⟨w, hP, hn, (Option.some.inj h).symm⟩
    | some x => simp [runUntil, hn] at h
  | succ fuel ih =>
    intro w w' hP h
    cases hn : nextTimer t w.timers with
    | none =>
      rw [runUntil_of_none hn] at h
      exact ⟨w, hP, hn, (Option.some.inj h).symm⟩
    | some x =>
      rw [runUntil_of_some hn] at h
      exact ih (fireTimer x w) w' (hstep w x hP hn) h

/-! ## The typing effect -/

theorem nextTimer_singleton_due (t T : Nat) (a : Action) (h : T ≤ t) :
    nextTimer t [⟨T, a⟩] = some ⟨T, a⟩ := by
  simp [nextTimer, h]

theorem nextTimer_singleton_later (t T : Nat) (a : Action) (h : t < T) :
    nextTimer t [⟨T, a⟩] = none :=
  nextTimer_eq_none_of_forall (by simpa using h)

theorem heroTitle_step (h l : CodeUnits) (i m : Nat) :
    (h ++ (l.drop i).take 1) ++ (l.drop (i + 1)).take m = h ++ (l.drop i).take (m + 1) := by
  rw [List.append_assoc, Nat.add_comm m 1, List.take_add, List.drop_drop]

/-- The typing effect from any of its states: `r` characters are left to type and
the next tick is due at `T`. -/
theorem typing_run (t : Nat) :
    ∀ (r : Nat) (w : Page) (T fuel : Nat),
      w.timers = [⟨T, .typeWriter⟩] → w.i + r = w.originalText.length → r + 1 ≤ fuel →
      ∃ w', runUntil fuel t w = some w' ∧
        w'.heroTitle = w.heroTitle ++ (w.originalText.drop w.i).take
          (if t < T then 0 else (t - T) / 80 + 1) ∧
        w'.timers = (if T + 80 * r ≤ t then []
          else [⟨T + 80 * (if t < T then 0 else (t - T) / 80 + 1), .typeWriter⟩]) := by
  intro r
  induction r with
  | zero =>
    intro w T fuel htimers hi hfuel
    by_cases ht : t < T
    · have hn : nextTimer t w.timers = none := by
        rw [htimers]
        exact nextTimer_singleton_later t T _ ht
      refine ⟨_, runUntil_of_none hn fuel, ?_, ?_⟩
      · simp only [if_pos ht, List.take_zero, List.append_nil]
      · have h2 : ¬ (T + 80 * 0 ≤ t) := by omega
        rw [if_neg h2, if_pos ht]
        simp [htimers]
    · have hn : nextTimer t w.timers = some ⟨T, .typeWriter⟩ := by
        rw [htimers]
        exact nextTimer_singleton_due t T _ (by omega)
      obtain ⟨f, rfl⟩ : ∃ f, fuel = f + 1 := ⟨fuel - 1, by omega⟩
      have hlen : ¬ (w.i < w.originalText.length) := by omega
      have hfire : fireTimer ⟨T, .typeWriter⟩ w = { w with now := T, timers := [] } := by
        simp [fireTimer, fire, typeWriter, typingSpeed, hlen, htimers]
      have hn2 : nextTimer t (fireTimer ⟨T, .typeWriter⟩ w).timers = none := by
        rw [hfire]
        rfl
      rw [runUntil_of_some hn]
      refine ⟨_, runUntil_of_none hn2 f, ?_, ?_⟩
      · rw [hfire]
        have hdrop : w.originalText.drop w.i = [] := by
          apply List.drop_of_length_le
          omega
        simp only [hdrop, List.take_nil, List.append_nil]
      · rw [hfire]
        have h2 : T + 80 * 0 ≤ t := by omega
        simp only [if_pos h2]
  | succ r ih =>
    intro w T fuel htimers hi hfuel
    by_cases ht : t < T
    · have hn : nextTimer t w.timers = none := by
        rw [htimers]
        exact nextTimer_singleton_later t T _ ht
      refine ⟨_, runUntil_of_none hn fuel, ?_, ?_⟩
      · simp only [if_pos ht, List.take_zero, List.append_nil]
      · have h2 : ¬ (T + 80 * (r + 1) ≤ t) := by omega
        rw [if_neg h2, if_pos ht]
        simp [htimers]
    · have hn : nextTimer t w.timers = some ⟨T, .typeWriter⟩ := by
        rw [htimers]
        exact nextTimer_singleton_due t T _ (by omega)
      obtain ⟨f, rfl⟩ : ∃ f, fuel = f + 1 := ⟨fuel - 1, by omega⟩
      have hlen : w.i < w.originalText.length := by omega
      have hfire : fireTimer ⟨T, .typeWriter⟩ w =
          { w with
            now := T
            timers := [⟨T + 80, .typeWriter⟩]
            heroTitle := w.heroTitle ++ charAt w.originalText w.i
            i := w.i + 1 } := by
        simp [fireTimer, fire, typeWriter, typingSpeed, hlen, htimers]
      rw [runUntil_of_some hn, hfire]
      obtain ⟨w', hrun, htitle, htim⟩ := ih
        { w with
          now := T
          timers := [⟨T + 80, .typeWriter⟩]
          heroTitle := w.heroTitle ++ charAt w.originalText w.i
          i := w.i + 1 } (T + 80) f rfl (by simp only; omega) (by omega)
      refine ⟨w', hrun, ?_, ?_⟩
      · rw [htitle]
        simp only [charAt]
        by_cases h80 : t < T + 80
        · have hm : (t - T) / 80 + 1 = 0 + 1 := by omega
          rw [if_pos h80, if_neg ht, hm]
          exact heroTitle_step _ _ _ _
        · have hm : (t - T) / 80 + 1 = ((t - (T + 80)) / 80 + 1) + 1 := by omega
          rw [if_neg h80, if_neg ht, hm]
          exact heroTitle_step _ _ _ _
      · rw [htim]
        by_cases h80 : t < T + 80
        · have h1 : ¬ (T + 80 + 80 * r ≤ t) := by omega
          have h2 : ¬ (T + 80 * (r + 1) ≤ t) := by omega
          have hm : (t - T) / 80 = 0 := by omega
          simp only [if_neg h1, if_neg h2, if_pos h80, if_neg ht, hm]
        · by_cases hend : T + 80 * (r + 1) ≤ t
          · have h1 : T + 80 + 80 * r ≤ t := by omega
            simp only [if_pos h1, if_pos hend]
          · have h1 : ¬ (T + 80 + 80 * r ≤ t) := by omega
            have hm : T + 80 + 80 * ((t - (T + 80)) / 80 + 1) =
                T + 80 * ((t - T) / 80 + 1) := by omega
            simp only [if_neg h1, if_neg hend, if_neg h80, if_neg ht, hm]

/-! ## A banner and the rest of the page -/

theorem nextTimer_filter {t : Nat} {ts : List Timer} {x : Timer} (q : Timer → Bool)
    (h : nextTimer t ts = some x) (hq : q x = true) : nextTimer t (ts.filter q) = some x := by
  obtain ⟨hmem, hdue, hmin⟩ := nextTimer_some h
  obtain ⟨_, as, bs, hts, has⟩ := List.find?_eq_some.mp h
  apply List.find?_eq_some.mpr
  refine ⟨?_, as.filter q, bs.filter q, ?_, ?_⟩
  · simp only [Bool.and_eq_true, decide_eq_true_eq, List.all_eq_true]
    exact ⟨hdue, fun y hy => hmin y (List.mem_filter.mp hy).1⟩
  · rw [hts, List.filter_append, List.filter_cons, if_pos hq]
  · intro a ha
    have ha' := List.mem_filter.mp ha
    have hna := has a ha'.1
    simp only [Bool.not_eq_true', Bool.and_eq_false_iff, decide_eq_false_iff_not,
      List.all_eq_false] at hna
    simp only [Bool.not_eq_true', Bool.and_eq_false_iff, decide_eq_false_iff_not,
      List.all_eq_false]
    rcases hna with hna | ⟨y, hy, hlt⟩
    · exact Or.inl hna
    · right
      refine ⟨x, List.mem_filter.mpr ⟨hmem, hq⟩, ?_⟩
      have := hmin y hy
      simp only [decide_eq_true_eq] at hlt ⊢
      omega

theorem nextTimer_filter_none {t : Nat} {ts : List Timer} (q : Timer → Bool)
    (h : nextTimer t ts = none) : nextTimer t (ts.filter q) = none :=
  nextTimer_eq_none_of_forall (fun y hy => nextTimer_none h y (List.mem_filter.mp hy).1)

theorem setTransform_cons (m : Nat) (value : String) (b : Banner) (bs : List Banner) :
    setTransform m value (b :: bs) =
      (if b.id = m then { b with transform := value } else b) :: setTransform m value bs :=
  rfl

theorem setTransform_id (m : Nat) (value : String) (b : Banner) :
    (if b.id = m then { b with transform := value } else b).id = b.id := by
  split <;> rfl

theorem filter_setTransform_same (n : Nat) (value : String) (body : List Banner) :
    (setTransform n value body).filter (fun b => decide (b.id ≠ n)) =
      body.filter (fun b => decide (b.id ≠ n)) := by
  induction body with
  | nil => rfl
  | cons b bs ih =>
    rw [setTransform_cons, List.filter_cons, List.filter_cons, setTransform_id, ih]
    by_cases hb : b.id = n
    · have hp : decide (b.id ≠ n) = false := by simp [hb]
      simp only [hp, Bool.false_eq_true, if_false]
    · rw [if_neg hb]

theorem filter_setTransform_other (n m : Nat) (value : String) (body : List Banner) :
    (setTransform m value body).filter (fun b => decide (b.id ≠ n)) =
      setTransform m value (body.filter (fun b => decide (b.id ≠ n))) := by
  induction body with
  | nil => rfl
  | cons b bs ih =>
    rw [setTransform_cons, List.filter_cons, List.filter_cons, setTransform_id, ih]
    by_cases hb : b.id = n
    · have hp : decide (b.id ≠ n) = false := by simp [hb]
      simp only [hp, Bool.false_eq_true, if_false]
    · have hp : decide (b.id ≠ n) = true := by simp [hb]
      simp only [hp, if_true, setTransform_cons]

theorem filter_erase_of_isFor (n : Nat) (x : Timer) (ts : List Timer)
    (hx : x.action.isFor n = true) :
    (ts.erase x).filter (fun y => !y.action.isFor n) =
      ts.filter (fun y => !y.action.isFor n) := by
  rw [← List.erase_filter]
  apply List.erase_of_not_mem
  intro h
  have := (List.mem_filter.mp h).2
  simp [hx] at this

theorem filter_erase_of_not_isFor (n : Nat) (x : Timer) (ts : List Timer) :
    (ts.erase x).filter (fun y => !y.action.isFor n) =
      (ts.filter (fun y => !y.action.isFor n)).erase x :=
  (List.erase_filter _ ts).symm

/-- A callback of the banner `n` leaves the rest of the page as it was. -/
theorem without_fireTimer_own (n : Nat) (u v : Page) (x : Timer) (h : Without n u v)
    (hx : x.action.isFor n = true) : Without n (fireTimer x u) v := by
  obtain ⟨h1, h2, h3, h4, h5, h6, h7, h8⟩ := h
  have herase := filter_erase_of_isFor n x u.timers hx
  obtain ⟨F, a⟩ := x
  cases a with
  | slideIn id =>
    have hid : id = n := by simpa [Action.isFor] using hx
    subst hid
    refine ⟨?_, ?_, h3, h4, h5, h6, h7, h8⟩
    · show v.timers = (u.timers.erase (Timer.mk (F) (.slideIn id))).filter _
      rw [herase]
      exact h1
    · show v.body = (setTransform id _ u.body).filter _
      rw [filter_setTransform_same]
      exact h2
  | slideOut id =>
    have hid : id = n := by simpa [Action.isFor] using hx
    subst hid
    refine ⟨?_, ?_, h3, h4, h5, h6, h7, h8⟩
    · show v.timers = (u.timers.erase (Timer.mk (F) (.slideOut id)) ++ [(Timer.mk (F + 300) (.remove id))]).filter _
      rw [List.filter_append, herase, ← h1]
      simp [Action.isFor]
    · show v.body = (setTransform id _ u.body).filter _
      rw [filter_setTransform_same]
      exact h2
  | remove id =>
    have hid : id = n := by simpa [Action.isFor] using hx
    subst hid
    refine ⟨?_, ?_, h3, h4, h5, h6, h7, h8⟩
    · show v.timers = (u.timers.erase (Timer.mk (F) (.remove id))).filter _
      rw [herase]
      exact h1
    · show v.body = (u.body.filter (fun b => decide (b.id ≠ id))).filter _
      rw [h2, List.filter_filter]
      simp
  | typeWriter =>
    simp [Action.isFor] at hx

/-- Any other callback does to the rest of the page what it does without the
banner `n`. -/
theorem without_fireTimer_other (n : Nat) (u v : Page) (x : Timer) (h : Without n u v)
    (hx : x.action.isFor n = false) : Without n (fireTimer x u) (fireTimer x v) := by
  obtain ⟨h1, h2, h3, h4, h5, h6, h7, h8⟩ := h
  have herase : (u.timers.erase x).filter (fun y => !y.action.isFor n) = v.timers.erase x := by
    rw [filter_erase_of_not_isFor, h1]
  obtain ⟨F, a⟩ := x
  cases a with
  | slideIn id =>
    refine ⟨herase.symm, ?_, h3, h4, h5, h6, h7, h8⟩
    show setTransform id _ v.body = (setTransform id _ u.body).filter _
    rw [filter_setTransform_other, h2]
  | slideOut id =>
    have hid : ¬ id = n := by simpa [Action.isFor] using hx
    refine ⟨?_, ?_, h3, h4, h5, h6, h7, h8⟩
    · show v.timers.erase (Timer.mk (F) (.slideOut id)) ++ [(Timer.mk (F + 300) (.remove id))] =
        (u.timers.erase (Timer.mk (F) (.slideOut id)) ++ [(Timer.mk (F + 300) (.remove id))]).filter _
      rw [List.filter_append, herase]
      simp [Action.isFor, hid]
    · show setTransform id _ v.body = (setTransform id _ u.body).filter _
      rw [filter_setTransform_other, h2]
  | remove id =>
    refine ⟨herase.symm, ?_, h3, h4, h5, h6, h7, h8⟩
    show v.body.filter (fun b => decide (b.id ≠ id)) =
      (u.body.filter (fun b => decide (b.id ≠ id))).filter _
    rw [h2, List.filter_filter, List.filter_filter]
    congr 1
    funext b
    exact Bool.and_comm _ _
  | typeWriter =>
    by_cases hi : u.i < u.originalText.length
    · have hi' : v.i < v.originalText.length := by rw [h3, h5]; exact hi
      have hu : fireTimer (Timer.mk F .typeWriter) u =
          { u with
            now := F
            timers := u.timers.erase (Timer.mk F .typeWriter) ++ [(Timer.mk (F + 80) (.typeWriter))]
            heroTitle := u.heroTitle ++ charAt u.originalText u.i
            i := u.i + 1 } := by
        simp [fireTimer, fire, typeWriter, typingSpeed, hi]
      have hv : fireTimer (Timer.mk F .typeWriter) v =
          { v with
            now := F
            timers := v.timers.erase (Timer.mk F .typeWriter) ++ [(Timer.mk (F + 80) (.typeWriter))]
            heroTitle := v.heroTitle ++ charAt v.originalText v.i
            i := v.i + 1 } := by
        simp [fireTimer, fire, typeWriter, typingSpeed, hi']
      rw [hu, hv]
      refine ⟨?_, h2, h3, ?_, ?_, h6, h7, h8⟩
      · show v.timers.erase (Timer.mk F .typeWriter) ++ [(Timer.mk (F + 80) (.typeWriter))] =
          (u.timers.erase (Timer.mk F .typeWriter) ++ [(Timer.mk (F + 80) (.typeWriter))]).filter _
        rw [List.filter_append, herase]
        simp [Action.isFor]
      · show v.heroTitle ++ charAt v.originalText v.i = u.heroTitle ++ charAt u.originalText u.i
        rw [h3, h4, h5]
      · show v.i + 1 = u.i + 1
        rw [h5]
    · have hi' : ¬ (v.i < v.originalText.length) := by rw [h3, h5]; exact hi
      have hu : fireTimer (Timer.mk F .typeWriter) u =
          { u with now := F, timers := u.timers.erase (Timer.mk F .typeWriter) } := by
        simp [fireTimer, fire, typeWriter, typingSpeed, hi]
      have hv : fireTimer (Timer.mk F .typeWriter) v =
          { v with now := F, timers := v.timers.erase (Timer.mk F .typeWriter) } := by
        simp [fireTimer, fire, typeWriter, typingSpeed, hi']
      rw [hu, hv]
      exact ⟨herase.symm, h2, h3, h4, h5, h6, h7, h8⟩

/-- A run of the page with the banner `n` and the run of the page without it end in
pages that differ by that banner and its timers only. -/
theorem without_runUntil (n t : Nat) :
    ∀ (fuel : Nat) (u v u' : Page), Without n u v → runUntil fuel t u = some u' →
      ∃ v', runUntil fuel t v = some v' ∧ Without n u' v' := by
  intro fuel
  induction fuel with
  | zero =>
    intro u v u' h hrun
    cases hn : nextTimer t u.timers with
    | none =>
      rw [runUntil_of_none hn] at hrun
      have hnv : nextTimer t v.timers = none := by
        rw [h.1]
        exact nextTimer_filter_none _ hn
      refine ⟨_, runUntil_of_none hnv 0, ?_⟩
      rw [← Option.some.inj hrun]
      exact h
    | some x => simp [runUntil, hn] at hrun
  | succ fuel ih =>
    intro u v u' h hrun
    cases hn : nextTimer t u.timers with
    | none =>
      rw [runUntil_of_none hn] at hrun
      have hnv : nextTimer t v.timers = none := by
        rw [h.1]
        exact nextTimer_filter_none _ hn
      refine ⟨_, runUntil_of_none hnv _, ?_⟩
      rw [← Option.some.inj hrun]
      exact h
    | some x =>
      rw [runUntil_of_some hn] at hrun
      cases hx : x.action.isFor n with
      | true =>
        obtain ⟨v', hv', hw'⟩ := ih (fireTimer x u) v u' (without_fireTimer_own n u v x h hx) hrun
        exact ⟨v', runUntil_mono t fuel v v' hv' (fuel + 1) (Nat.le_succ _), hw'⟩
      | false =>
        have hnv : nextTimer t v.timers = some x := by
          rw [h.1]
          exact nextTimer_filter _ hn (by simp [hx])
        rw [runUntil_of_some hnv]
        exact ih (fireTimer x u) (fireTimer x v) u' (without_fireTimer_other n u v x h hx) hrun

/-! ## What a callback does to the timers and to the banners -/

theorem mem_setTransform {m : Nat} {value : String} {body : List Banner} {b : Banner}
    (h : b ∈ setTransform m value body) :
    ∃ b0 ∈ body, b0.id = b.id ∧ b0.textContent = b.textContent := by
  obtain ⟨b0, hb0, rfl⟩ := List.mem_map.mp h
  refine ⟨b0, hb0, ?_, ?_⟩ <;> split <;> rfl

theorem mem_setTransform_of_mem {m : Nat} {value : String} {body : List Banner} {b0 : Banner}
    (h : b0 ∈ body) :
    ∃ b ∈ setTransform m value body, b.id = b0.id ∧ b.textContent = b0.textContent := by
  refine ⟨_, List.mem_map_of_mem _ h, ?_, ?_⟩ <;> split <;> rfl

theorem mem_timers_fireTimer {x y : Timer} {w : Page} (h : y ∈ (fireTimer x w).timers) :
    y ∈ w.timers.erase x ∨ (x.action = .typeWriter ∧ y.action = .typeWriter) ∨
      ∃ id, x.action = .slideOut id ∧ y = ⟨x.fireAt + 300, .remove id⟩ := by
  obtain ⟨F, a⟩ := x
  cases a with
  | slideIn id => exact Or.inl h
  | slideOut id =>
    have h' : y ∈ w.timers.erase (Timer.mk F (.slideOut id)) ++
        [Timer.mk (F + 300) (.remove id)] := h
    rcases List.mem_append.mp h' with h' | h'
    · exact Or.inl h'
    · exact Or.inr (Or.inr ⟨id, rfl, List.mem_singleton.mp h'⟩)
  | remove id => exact Or.inl h
  | typeWriter =>
    by_cases hi : w.i < w.originalText.length
    · have h' : y ∈ w.timers.erase (Timer.mk F .typeWriter) ++
          [Timer.mk (F + 80) .typeWriter] := by
        simpa [fireTimer, fire, typeWriter, typingSpeed, hi] using h
      rcases List.mem_append.mp h' with h' | h'
      · exact Or.inl h'
      · right; left
        rw [List.mem_singleton.mp h']
        exact ⟨rfl, rfl⟩
    · have h' : y ∈ w.timers.erase (Timer.mk F .typeWriter) := by
        simpa [fireTimer, fire, typeWriter, typingSpeed, hi] using h
      exact Or.inl h'

theorem mem_fireTimer_of_mem_erase {x y : Timer} {w : Page} (h : y ∈ w.timers.erase x) :
    y ∈ (fireTimer x w).timers := by
  obtain ⟨F, a⟩ := x
  cases a with
  | slideIn id => exact h
  | slideOut id =>
    show y ∈ w.timers.erase (Timer.mk F (.slideOut id)) ++ [Timer.mk (F + 300) (.remove id)]
    exact List.mem_append_left _ h
  | remove id => exact h
  | typeWriter =>
    by_cases hi : w.i < w.originalText.length
    · have : (fireTimer (Timer.mk F .typeWriter) w).timers =
          w.timers.erase (Timer.mk F .typeWriter) ++ [Timer.mk (F + 80) .typeWriter] := by
        simp [fireTimer, fire, typeWriter, typingSpeed, hi]
      rw [this]
      exact List.mem_append_left _ h
    · have : (fireTimer (Timer.mk F .typeWriter) w).timers =
          w.timers.erase (Timer.mk F .typeWriter) := by
        simp [fireTimer, fire, typeWriter, typingSpeed, hi]
      rw [this]
      exact h

theorem remove_mem_fireTimer_slideOut {x : Timer} {w : Page} {id : Nat}
    (h : x.action = .slideOut id) :
    (⟨x.fireAt + 300, .remove id⟩ : Timer) ∈ (fireTimer x w).timers := by
  obtain ⟨F, a⟩ := x
  simp only at h
  subst h
  show Timer.mk (F + 300) (.remove id) ∈
    w.timers.erase (Timer.mk F (.slideOut id)) ++ [Timer.mk (F + 300) (.remove id)]
  simp

theorem body_fireTimer_typeWriter (F : Nat) (w : Page) :
    (fireTimer ⟨F, .typeWriter⟩ w).body = w.body := by
  by_cases hi : w.i < w.originalText.length <;> simp [fireTimer, fire, typeWriter, typingSpeed, hi]

theorem nextId_fireTimer (x : Timer) (w : Page) : (fireTimer x w).nextId = w.nextId := by
  obtain ⟨F, a⟩ := x
  cases a with
  | slideIn id => rfl
  | slideOut id => rfl
  | remove id => rfl
  | typeWriter =>
    by_cases hi : w.i < w.originalText.length <;> simp [fireTimer, fire, typeWriter, typingSpeed, hi]

theorem mem_body_fireTimer {x : Timer} {w : Page} {b : Banner} (h : b ∈ (fireTimer x w).body) :
    ∃ b0 ∈ w.body, b0.id = b.id ∧ b0.textContent = b.textContent := by
  obtain ⟨F, a⟩ := x
  cases a with
  | slideIn id => exact mem_setTransform h
  | slideOut id => exact mem_setTransform h
  | remove id =>
    have h' : b ∈ w.body.filter (fun b => decide (b.id ≠ id)) := h
    exact ⟨b, (List.mem_filter.mp h').1, rfl, rfl⟩
  | typeWriter =>
    rw [body_fireTimer_typeWriter] at h
    exact ⟨b, h, rfl, rfl⟩

theorem mem_body_fireTimer_of_mem {x : Timer} {w : Page} {b0 : Banner} (h : b0 ∈ w.body)
    (hx : x.action ≠ .remove b0.id) :
    ∃ b ∈ (fireTimer x w).body, b.id = b0.id ∧ b.textContent = b0.textContent := by
  obtain ⟨F, a⟩ := x
  cases a with
  | slideIn id => exact mem_setTransform_of_mem h
  | slideOut id => exact mem_setTransform_of_mem h
  | remove id =>
    have hne : b0.id ≠ id := fun e => hx (by rw [e])
    refine ⟨b0, ?_, rfl, rfl⟩
    show b0 ∈ w.body.filter (fun b => decide (b.id ≠ id))
    exact List.mem_filter.mpr ⟨h, by simpa using hne⟩
  | typeWriter =>
    rw [body_fireTimer_typeWriter]
    exact ⟨b0, h, rfl, rfl⟩

theorem not_mem_body_fireTimer_remove {x : Timer} {w : Page} {id : Nat}
    (hx : x.action = .remove id) : ∀ b ∈ (fireTimer x w).body, b.id ≠ id := by
  obtain ⟨F, a⟩ := x
  simp only at hx
  subst hx
  intro b hb
  have h' : b ∈ w.body.filter (fun b => decide (b.id ≠ id)) := hb
  simpa using (List.mem_filter.mp h').2

/-- Every due timer keeps the banner on its course. -/
theorem lifecycle_fireTimer (n : Nat) (msg : String) (T t : Nat) (w : Page) (x : Timer)
    (h : Lifecycle n msg T t w) (hx : nextTimer t w.timers = some x) :
    Lifecycle n msg T t (fireTimer x w) := by
  obtain ⟨i1, i2, i3, i4⟩ := h
  obtain ⟨hmem, hdue, _⟩ := nextTimer_some hx
  refine ⟨?_, ?_, ?_, ?_⟩
  · intro y hy hya
    rcases mem_timers_fireTimer hy with h1 | ⟨_, h1⟩ | ⟨id, _, h1⟩
    · exact i1 y (List.mem_of_mem_erase h1) hya
    · rw [hya] at h1
      exact absurd h1 (by simp)
    · rw [h1] at hya
      exact absurd hya (by simp)
  · intro y hy hya
    rcases mem_timers_fireTimer hy with h1 | ⟨_, h1⟩ | ⟨id, hxa, h1⟩
    · exact i2 y (List.mem_of_mem_erase h1) hya
    · rw [hya] at h1
      exact absurd h1 (by simp)
    · rw [h1] at hya
      simp only [Action.remove.injEq] at hya
      subst hya
      have := i1 x hmem hxa
      rw [h1]
      show x.fireAt + 300 = T + 4300
      omega
  · rcases i3 with ⟨b0, hb0, hid, htext⟩ | h3
    · by_cases hxa : x.action = .remove n
      · right
        have := i2 x hmem hxa
        omega
      · left
        obtain ⟨b, hb, hbid, hbtext⟩ := mem_body_fireTimer_of_mem hb0 (by rw [hid]; exact hxa)
        exact ⟨b, hb, hbid.trans hid, hbtext.trans htext⟩
    · exact Or.inr h3
  · rintro ⟨b, hb, hbid⟩
    obtain ⟨b0, hb0, hid0, _⟩ := mem_body_fireTimer hb
    obtain ⟨y, hy, hya⟩ := i4 ⟨b0, hb0, hid0.trans hbid⟩
    have hxr : x.action ≠ .remove n := fun e => not_mem_body_fireTimer_remove e b hb hbid
    by_cases hyx : y = x
    · subst hyx
      rcases hya with hya | hya
      · exact ⟨_, remove_mem_fireTimer_slideOut hya, Or.inr rfl⟩
      · exact absurd hya hxr
    · exact ⟨y, mem_fireTimer_of_mem_erase ((List.mem_erase_of_ne hyx).mpr hy), hya⟩

theorem not_isFor_of_isBelow {n : Nat} {a : Action} (h : a.isBelow n = true) :
    a.isFor n = false := by
  cases a <;> simp [Action.isBelow, Action.isFor] at h ⊢ <;> omega

/-- The call starts the banner on its course. -/
theorem lifecycle_showNotification (message : String) (type : Option String) (w : Page)
    (hw : w.wellFormed = true) (t : Nat) :
    Lifecycle w.nextId message w.now t (showNotification message type w) := by
  simp only [Page.wellFormed, Bool.and_eq_true, List.all_eq_true, decide_eq_true_eq] at hw
  obtain ⟨_, hwt⟩ := hw
  refine ⟨?_, ?_, ?_, ?_⟩
  · intro y hy hya
    simp only [showNotification, List.mem_append, List.mem_cons, List.mem_singleton,
      List.not_mem_nil, or_false] at hy
    rcases hy with hy | rfl | rfl
    · have := hwt y hy
      rw [hya] at this
      simp [Action.isBelow] at this
    · simp at hya
    · rfl
  · intro y hy hya
    simp only [showNotification, List.mem_append, List.mem_cons, List.mem_singleton,
      List.not_mem_nil, or_false] at hy
    rcases hy with hy | rfl | rfl
    · have := hwt y hy
      rw [hya] at this
      simp [Action.isBelow] at this
    · simp at hya
    · simp at hya
  · left
    exact ⟨newBanner w.nextId message type, by simp [showNotification], rfl, rfl⟩
  · intro _
    exact ⟨⟨w.now + 4000, .slideOut w.nextId⟩, by simp [showNotification], Or.inl rfl⟩

/-- The page before the call is the page after it without the new banner. -/
theorem without_showNotification (message : String) (type : Option String) (w : Page)
    (hw : w.wellFormed = true) : Without w.nextId (showNotification message type w) w := by
  simp only [Page.wellFormed, Bool.and_eq_true, List.all_eq_true, decide_eq_true_eq] at hw
  obtain ⟨hwb, hwt⟩ := hw
  refine ⟨?_, ?_, rfl, rfl, rfl, rfl, rfl, rfl⟩
  · simp only [showNotification, List.filter_append]
    have h1 : w.timers.filter (fun x => !x.action.isFor w.nextId) = w.timers := by
      apply List.filter_eq_self.mpr
      intro y hy
      simp [not_isFor_of_isBelow (hwt y hy)]
    rw [h1]
    simp [Action.isFor]
  · simp only [showNotification, List.filter_append]
    have h1 : w.body.filter (fun b => decide (b.id ≠ w.nextId)) = w.body := by
      apply List.filter_eq_self.mpr
      intro b hb
      have := hwb b hb
      simp only [decide_eq_true_eq]
      omega
    rw [h1]
    simp [newBanner]

theorem potential_showNotification (message : String) (type : Option String) (w : Page) :
    potential (showNotification message type w) = potential w + 3 := by
  simp only [potential, showNotification, List.map_append, List.sum_append]
  rfl

/-! ## Well-formed pages -/

theorem wellFormed_iff (w : Page) :
    w.wellFormed = true ↔
      (∀ b ∈ w.body, b.id < w.nextId) ∧ ∀ x ∈ w.timers, x.action.isBelow w.nextId = true := by
  simp [Page.wellFormed]

theorem isBelow_mono {n m : Nat} (hnm : n ≤ m) {a : Action} (h : a.isBelow n = true) :
    a.isBelow m = true := by
  cases a <;> simp [Action.isBelow] at h ⊢ <;> omega

theorem wellFormed_loadedPage (heading : CodeUnits) (options : List OptionElement)
    (defaults : FormFields) : (loadedPage heading options defaults).wellFormed = true := by
  simp [loadedPage, startTyping, Page.wellFormed, Action.isBelow]

theorem wellFormed_showNotification (message : String) (type : Option String) (w : Page)
    (hw : w.wellFormed = true) : (showNotification message type w).wellFormed = true := by
  rw [wellFormed_iff] at hw ⊢
  obtain ⟨hb, ht⟩ := hw
  constructor
  · intro b hb'
    simp only [showNotification, List.mem_append, List.mem_singleton] at hb' ⊢
    rcases hb' with hb' | rfl
    · have := hb b hb'
      omega
    · simp [newBanner]
  · intro x hx
    simp only [showNotification, List.mem_append, List.mem_cons, List.mem_singleton,
      List.not_mem_nil, or_false] at hx ⊢
    rcases hx with hx | rfl | rfl
    · exact isBelow_mono (Nat.le_succ _) (ht x hx)
    · simp [Action.isBelow]
    · simp [Action.isBelow]

theorem wellFormed_fireTimer (x : Timer) (w : Page) (hx : x ∈ w.timers)
    (hw : w.wellFormed = true) : (fireTimer x w).wellFormed = true := by
  rw [wellFormed_iff] at hw ⊢
  obtain ⟨hb, ht⟩ := hw
  rw [nextId_fireTimer]
  constructor
  · intro b hb'
    obtain ⟨b0, hb0, hid, _⟩ := mem_body_fireTimer hb'
    rw [← hid]
    exact hb b0 hb0
  · intro y hy
    rcases mem_timers_fireTimer hy with h1 | ⟨_, h1⟩ | ⟨id, hxa, h1⟩
    · exact ht y (List.mem_of_mem_erase h1)
    · rw [h1]
      rfl
    · have := ht x hx
      rw [hxa] at this
      rw [h1]
      exact this

theorem wellFormed_runUntil (t fuel : Nat) (w w' : Page) (hw : w.wellFormed = true)
    (h : runUntil fuel t w = some w') : w'.wellFormed = true := by
  obtain ⟨w'', hw'', _, rfl⟩ := runUntil_induction t (fun p => p.wellFormed = true)
    (fun p x hp hx => wellFormed_fireTimer x p (nextTimer_some hx).1 hp) fuel w w' hw h
  exact hw''

theorem wellFormed_contactFormSubmit (w : Page) (hw : w.wellFormed = true) :
    (contactFormSubmit w).1.wellFormed = true := by
  unfold contactFormSubmit
  simp only
  split
  · exact wellFormed_showNotification _ _ w hw
  · split
    · exact wellFormed_showNotification _ _ w hw
    · split
      · exact wellFormed_showNotification _ _ w hw
      · split
        · exact hw
        · exact wellFormed_showNotification _ _ w hw

/-- With a vehicle other than "other", safe to splice into the selector, that no
option carries as its `value` attribute, a submission that passes the three checks
ends with the `TypeError` and leaves the page as it was. -/
theorem contactFormSubmit_of_missing_option (w : Page)
    (h : ¬ (w.form.name = "" ∨ w.form.email = "" ∨ w.form.phone = "" ∨ w.form.vehicle = ""))
    (he : isValidEmail w.form.email = true) (hp : isValidPhone w.form.phone = true)
    (hother : w.form.vehicle ≠ "other") (hsafe : selectorSafe w.form.vehicle = true)
    (hnone : ∀ o ∈ w.options, o.valueAttribute ≠ some w.form.vehicle) :
    contactFormSubmit w = (w, .typeError) := by
  have hf : w.options.find? (fun o => o.valueAttribute == some w.form.vehicle) = none := by
    apply List.find?_eq_none.mpr
    intro o ho
    simpa using hnone o ho
  have hq : querySelectorOption w.options w.form.vehicle = .null := by
    simp only [querySelectorOption, hsafe, if_true, hf]
  rw [contactFormSubmit_pass w h he hp]
  simp [vehicleName, hother, hq]

/-! ## The claims -/

/-- C1 as stated fails: nine digits after a `+` are accepted, since the lower bound
of 10 is on the length of the cleaned string and the `+` counts towards it; and ten
digits separated by tabs are accepted, since every white space character is removed,
not the space alone. -/
theorem isValidPhone_spec_counterexample :
    isValidPhone "+123456789" = true ∧ phoneShapeSpec "+123456789" = false ∧
      isValidPhone "555\t123\t4567" = true ∧ phoneShapeSpec "555\t123\t4567" = false := by
  decide

/-- C1, amended: `isValidPhone` accepts exactly the strings that, once every white
space character, hyphen, parenthesis and dot is removed, are an optional leading `+`
followed only by digits, the first of them `1` to `9`, at most 16 digits, the
remainder being at least 10 characters long with the `+` counted. "(555) 123-4567"
is valid; "555-123" and "0555123456" are not. -/
theorem isValidPhone_shape :
    (∀ p : String, isValidPhone p = phoneShapeAmended p) ∧
      isValidPhone "(555) 123-4567" = true ∧ isValidPhone "555-123" = false ∧
      isValidPhone "0555123456" = false := by
  refine ⟨fun p => ?_, by decide, by decide, by decide⟩
  rw [Bool.eq_iff_iff]
  have hreg : Regex.test phoneRegex (cleanPhone p) = true ↔
      [] ∈ Regex.run phoneRegex (cleanPhone p).data := by
    simp [Regex.test]
  have hclean : (cleanPhone p).data = p.data.filter
      (fun c => !(isWhitespace c || c == '-' || c == '(' || c == ')' || c == '.')) := rfl
  simp only [isValidPhone, phoneShapeAmended, Bool.and_eq_true, decide_eq_true_eq, hreg,
    phone_split_iff, String.length, hclean]
  tauto

/-- C2 as stated fails: "a@.b" has no white space, one `@` with a non-empty part on
each side and a `.` after the `@`, yet the expression rejects it. -/
theorem isValidEmail_spec_counterexample :
    isValidEmail "a@.b" = false ∧ emailShapeSpec "a@.b" = true := by
  decide

/-- C2, amended: `isValidEmail` accepts exactly the strings without white space,
with exactly one `@` and a non-empty part on each side of it, whose part after the
`@` has a `.` that is neither its first nor its last character. "a@b.com" is valid;
"a@b" and "a b@c.com" are not. -/
theorem isValidEmail_shape :
    (∀ e : String, isValidEmail e = emailShapeAmended e) ∧
      isValidEmail "a@b.com" = true ∧ isValidEmail "a@b" = false ∧
      isValidEmail "a b@c.com" = false := by
  refine ⟨fun e => ?_, by decide, by decide, by decide⟩
  rw [Bool.eq_iff_iff]
  have hreg : isValidEmail e = true ↔ [] ∈ Regex.run emailRegex e.data := by
    simp [isValidEmail, Regex.test]
  rw [hreg, mem_run_emailRegex, email_split_iff]
  simp [emailShapeAmended, localPart, domainPart, and_assoc]

/-- C3: the submit handler checks the required fields, then the email, then the
phone, and stops at the first failure. A missing name, email, phone or vehicle
appends the single banner "Please fill in all required fields!" whatever the other
values are; otherwise an invalid email appends only "Please enter a valid email
address!", also when the phone is invalid too; otherwise an invalid phone appends
only "Please enter a valid phone number!". Each of these banners has the class and
the colour of an error, and with the four required fields filled in the first
banner is never the one appended, whatever the message field holds. -/
theorem contactFormSubmit_validation_order (w : Page) :
    ((w.form.name = "" ∨ w.form.email = "" ∨ w.form.phone = "" ∨ w.form.vehicle = "") →
      (contactFormSubmit w).2 = Completion.normal ∧
      (contactFormSubmit w).1.body = w.body ++
        [newBanner w.nextId "Please fill in all required fields!" (some "error")]) ∧
    (¬ (w.form.name = "" ∨ w.form.email = "" ∨ w.form.phone = "" ∨ w.form.vehicle = "") →
      isValidEmail w.form.email = false →
      (contactFormSubmit w).2 = Completion.normal ∧
      (contactFormSubmit w).1.body = w.body ++
        [newBanner w.nextId "Please enter a valid email address!" (some "error")]) ∧
    (¬ (w.form.name = "" ∨ w.form.email = "" ∨ w.form.phone = "" ∨ w.form.vehicle = "") →
      isValidEmail w.form.email = true → isValidPhone w.form.phone = false →
      (contactFormSubmit w).2 = Completion.normal ∧
      (contactFormSubmit w).1.body = w.body ++
        [newBanner w.nextId "Please enter a valid phone number!" (some "error")]) ∧
    (¬ (w.form.name = "" ∨ w.form.email = "" ∨ w.form.phone = "" ∨ w.form.vehicle = "") →
      ∀ b ∈ (contactFormSubmit w).1.body,
        b ∈ w.body ∨ b.textContent ≠ "Please fill in all required fields!") ∧
    (∀ id text, (newBanner id text (some "error")).textContent = text ∧
      (newBanner id text (some "error")).className = "notification error" ∧
      (newBanner id text (some "error")).background =
        "linear-gradient(135deg, #e74c3c, #c0392b)") := by
  refine ⟨?_, ?_, ?_, ?_, ?_⟩
  · intro h
    rw [contactFormSubmit_required w h]
    exact ⟨rfl, rfl⟩
  · intro h he
    rw [contactFormSubmit_email w h he]
    exact ⟨rfl, rfl⟩
  · intro h he hp
    rw [contactFormSubmit_phone w h he hp]
    exact ⟨rfl, rfl⟩
  · intro h b hb
    cases he : isValidEmail w.form.email with
    | false =>
      rw [contactFormSubmit_email w h he] at hb
      rcases List.mem_append.mp hb with hb | hb
      · exact Or.inl hb
      · right
        rw [List.mem_singleton.mp hb]
        show "Please enter a valid email address!" ≠ "Please fill in all required fields!"
        decide
    | true =>
      cases hp : isValidPhone w.form.phone with
      | false =>
        rw [contactFormSubmit_phone w h he hp] at hb
        rcases List.mem_append.mp hb with hb | hb
        · exact Or.inl hb
        · right
          rw [List.mem_singleton.mp hb]
          show "Please enter a valid phone number!" ≠ "Please fill in all required fields!"
          decide
      | true =>
        rw [contactFormSubmit_pass w h he hp] at hb
        cases hv : vehicleName w.options w.form.vehicle with
        | error completion =>
          rw [hv] at hb
          exact Or.inl hb
        | ok label =>
          rw [hv] at hb
          rcases List.mem_append.mp hb with hb | hb
          · exact Or.inl hb
          · right
            rw [List.mem_singleton.mp hb]
            exact thankYou_ne_required _ _
  · intro id text
    exact ⟨rfl, rfl, rfl⟩

/-- C3, at concrete submissions: a missing name with everything else valid, an
invalid email together with an invalid phone, and an invalid phone alone. -/
theorem contactFormSubmit_validation_order_witness :
    (contactFormSubmit (samplePage ⟨"", "a@b.com", "5551234567", "sedan", "hi"⟩)).1.body =
        [newBanner 0 "Please fill in all required fields!" (some "error")] ∧
      (contactFormSubmit (samplePage ⟨"Ann", "a@b", "555-123", "sedan", ""⟩)).1.body =
        [newBanner 0 "Please enter a valid email address!" (some "error")] ∧
      (contactFormSubmit (samplePage ⟨"Ann", "a@b.com", "555-123", "sedan", ""⟩)).1.body =
        [newBanner 0 "Please enter a valid phone number!" (some "error")] :=
  ⟨((contactFormSubmit_validation_order
      (samplePage ⟨"", "a@b.com", "5551234567", "sedan", "hi"⟩)).1 (by decide)).2,
    ((contactFormSubmit_validation_order
      (samplePage ⟨"Ann", "a@b", "555-123", "sedan", ""⟩)).2.1 (by decide) (by decide)).2,
    ((contactFormSubmit_validation_order
      (samplePage ⟨"Ann", "a@b.com", "555-123", "sedan", ""⟩)).2.2.1
        (by decide) (by decide) (by decide)).2⟩

/-- C4 fails on the code: on a page whose vehicle list is `<option>Coupe</option>`,
the chosen vehicle "Coupe" is the value of an existing option element and the
submission passes the three checks, yet line 86 finds no element with that `value`
attribute: the handler ends with a `TypeError` and shows no banner at all. -/
theorem contactFormSubmit_bare_option_throws :
    (∃ o ∈ pageWithBareOption.options, o.value = pageWithBareOption.form.vehicle) ∧
      ¬ (pageWithBareOption.form.name = "" ∨ pageWithBareOption.form.email = "" ∨
        pageWithBareOption.form.phone = "" ∨ pageWithBareOption.form.vehicle = "") ∧
      isValidEmail pageWithBareOption.form.email = true ∧
      isValidPhone pageWithBareOption.form.phone = true ∧
      (contactFormSubmit pageWithBareOption).2 = Completion.typeError ∧
      (contactFormSubmit pageWithBareOption).1.body = [] := by
  decide

/-- C5 as stated fails: on a page whose vehicle list has no placeholder, a valid
submission choosing "other" is accepted and the form is reset, which puts the
vehicle field back to its default "sedan" and not to the empty value. -/
theorem contactFormSubmit_clears_counterexample :
    ¬ (pageWithDefaultVehicle.form.name = "" ∨ pageWithDefaultVehicle.form.email = "" ∨
        pageWithDefaultVehicle.form.phone = "" ∨ pageWithDefaultVehicle.form.vehicle = "") ∧
      isValidEmail pageWithDefaultVehicle.form.email = true ∧
      isValidPhone pageWithDefaultVehicle.form.phone = true ∧
      (contactFormSubmit pageWithDefaultVehicle).2 = Completion.normal ∧
      (contactFormSubmit pageWithDefaultVehicle).1.form = ⟨"", "", "", "sedan", ""⟩ := by
  decide

/-- C5, amended: a submission that passes the three checks and whose label line 86
finds (the vehicle is "other", or it is the `value` attribute of an existing option
and safe to splice into the selector) leaves every field of the form at its default
in the markup, hence empty where the markup gives no default. -/
theorem contactFormSubmit_resets (w : Page)
    (hreq : ¬ (w.form.name = "" ∨ w.form.email = "" ∨ w.form.phone = "" ∨
      w.form.vehicle = ""))
    (he : isValidEmail w.form.email = true) (hp : isValidPhone w.form.phone = true)
    (hv : w.form.vehicle = "other" ∨
      (selectorSafe w.form.vehicle = true ∧
        ∃ o ∈ w.options, o.valueAttribute = some w.form.vehicle)) :
    (contactFormSubmit w).2 = Completion.normal ∧
      (contactFormSubmit w).1.form = w.formDefaults ∧
      (w.formDefaults = ⟨"", "", "", "", ""⟩ →
        (contactFormSubmit w).1.form.name = "" ∧ (contactFormSubmit w).1.form.email = "" ∧
        (contactFormSubmit w).1.form.phone = "" ∧ (contactFormSubmit w).1.form.vehicle = "" ∧
        (contactFormSubmit w).1.form.message = "") := by
  obtain ⟨label, hlabel, _, _⟩ := vehicleName_of_found w.options w.form.vehicle hv
  have hrun : contactFormSubmit w =
      (resetForm (showNotification (thankYou w.form.name label) (some "success") w),
        .normal) := by
    rw [contactFormSubmit_pass w hreq he hp, hlabel]
  have hform : (contactFormSubmit w).1.form = w.formDefaults := by
    rw [hrun]
    rfl
  refine ⟨by rw [hrun], hform, fun hd => ?_⟩
  rw [hform, hd]
  exact ⟨rfl, rfl, rfl, rfl, rfl⟩

/-- C5 amended, at a concrete submission choosing the option "sedan" on a page
without form defaults. -/
theorem contactFormSubmit_resets_witness :
    (contactFormSubmit
        (samplePage ⟨"Ann", "a@b.com", "5551234567", "sedan", "Hello"⟩)).1.form =
      ⟨"", "", "", "", ""⟩ :=
  (contactFormSubmit_resets (samplePage ⟨"Ann", "a@b.com", "5551234567", "sedan", "Hello"⟩)
    (by decide) (by decide) (by decide)
    (Or.inr ⟨by decide, ⟨some "sedan", "Family Sedan"⟩, by decide, rfl⟩)).2.1

/-- C6 fails on the code: with a valid submission whose vehicle "coupe" has no
option element, the handler ends with a `TypeError`; no banner is shown and the
form keeps its values. -/
theorem contactFormSubmit_missing_option_throws :
    (contactFormSubmit pageWithoutOption).2 = Completion.typeError ∧
      (contactFormSubmit pageWithoutOption).1.body = [] ∧
      (contactFormSubmit pageWithoutOption).1.form =
        ⟨"Ann", "ann@example.com", "5551234567", "coupe", ""⟩ := by
  decide

/-- C7: a banner created by `showNotification` at the time `w.now` is in the page,
with its text, at every time before `w.now + 4300`, and is out of the page from
`w.now + 4300` on (4000 ms of dwell and 300 ms of slide-out, under the nominal timer
delays), whatever other timers are pending. Apart from that banner the page holds
at every time the banners it would hold without the call, and from `w.now + 4300`
on exactly those: the call removes the element it created and no other. -/
theorem showNotification_lifetime (message : String) (type : Option String) (w : Page)
    (hw : w.wellFormed = true) (t fuel : Nat) (hfuel : potential w + 3 ≤ fuel) :
    ∃ w' v', runUntil fuel t (showNotification message type w) = some w' ∧
      runUntil fuel t w = some v' ∧
      (t < w.now + 4300 → ∃ b ∈ w'.body, b.id = w.nextId ∧ b.textContent = message) ∧
      (w.now + 4300 ≤ t → (∀ b ∈ w'.body, b.id ≠ w.nextId) ∧ w'.body = v'.body) ∧
      v'.body = w'.body.filter (fun b => decide (b.id ≠ w.nextId)) := by
  obtain ⟨w', hrun⟩ := runUntil_isSome t fuel (showNotification message type w)
    (by rw [potential_showNotification]; exact hfuel)
  obtain ⟨w'', hlife, hnone, hw'⟩ := runUntil_induction t
    (Lifecycle w.nextId message w.now t)
    (fun p x hp hx => lifecycle_fireTimer w.nextId message w.now t p x hp hx)
    fuel _ w' (lifecycle_showNotification message type w hw t) hrun
  obtain ⟨v', hv', hwo⟩ := without_runUntil w.nextId t fuel _ w w'
    (without_showNotification message type w hw) hrun
  obtain ⟨i1, i2, i3, i4⟩ := hlife
  have hbody : w'.body = w''.body := by rw [hw']
  have hout : w.now + 4300 ≤ t → ∀ b ∈ w'.body, b.id ≠ w.nextId := by
    intro ht b hb hid
    rw [hbody] at hb
    obtain ⟨y, hy, hya⟩ := i4 ⟨b, hb, hid⟩
    have hlate := nextTimer_none hnone y hy
    rcases hya with hya | hya
    · have := i1 y hy hya
      omega
    · have := i2 y hy hya
      omega
  refine ⟨w', v', hrun, hv', ?_, ?_, hwo.2.1⟩
  · intro ht
    rw [hbody]
    rcases i3 with h3 | h3
    · exact h3
    · omega
  · intro ht
    refine ⟨hout ht, ?_⟩
    rw [hwo.2.1]
    symm
    apply List.filter_eq_self.mpr
    intro b hb
    simpa using hout ht b hb

/-- C7, on the page right after load, where the typing effect is still pending: the
banner is in the page 3.9 s after the call and out of it 4.5 s after the call. -/
theorem showNotification_lifetime_witness :
    (∃ w', runUntil 9 3900
        (showNotification "Hello" (some "info") (loadedPage (utf16 "Drive") [] ⟨"", "", "", "", ""⟩)) =
          some w' ∧
        ∃ b ∈ w'.body, b.id = 0 ∧ b.textContent = "Hello") ∧
      (∃ w', runUntil 9 4500
        (showNotification "Hello" (some "info") (loadedPage (utf16 "Drive") [] ⟨"", "", "", "", ""⟩)) =
          some w' ∧
        ∀ b ∈ w'.body, b.id ≠ 0) :=
  ⟨match showNotification_lifetime "Hello" (some "info")
      (loadedPage (utf16 "Drive") [] ⟨"", "", "", "", ""⟩) (by decide) 3900 9 (by decide) with
    | ⟨w', _, h, _, hin, _, _⟩ => ⟨w', h, hin (by decide)⟩,
   match showNotification_lifetime "Hello" (some "info")
      (loadedPage (utf16 "Drive") [] ⟨"", "", "", "", ""⟩) (by decide) 4500 9 (by decide) with
    | ⟨w', _, h, _, _, hout, _⟩ => ⟨w', h, (hout (by decide)).1⟩⟩

/-- C8 as stated fails: a car card that was marked visible, then hovered and left
and scrolled out of view, has the transform "translateY(0) scale(1)"; the next
invocation of the callback with `isIntersecting` true rewrites it to "translateY(0)". -/
theorem reveal_one_shot_counterexample :
    (observerCallback [⟨0, true⟩] hiddenStyles 0).opacity = "1" ∧
      (observerCallback [⟨0, true⟩] hiddenStyles 0).transform = "translateY(0)" ∧
      (hoveredStyles 0).transform = "translateY(0) scale(1)" ∧
      observerCallback [⟨0, true⟩] hoveredStyles 0 ≠ hoveredStyles 0 := by
  decide

/-- C8, amended: once the intersection callback has marked an element visible
(opacity "1", transform "translateY(0)"), it is never hidden again: its opacity
stays "1" through every later callback and hover event. A later invocation of the
callback leaves its style unchanged when it is not intersecting, or when the
transform is still "translateY(0)"; that is always so for an element without hover
listeners (not a car card). Otherwise an intersecting callback sets the transform
back to "translateY(0)". -/
theorem reveal_one_shot (carCard : Nat → Bool) (d : Styles) (x : Nat) (entries : List Entry)
    (hx : (⟨x, true⟩ : Entry) ∈ entries) :
    (observerCallback entries d x).opacity = "1" ∧
      (observerCallback entries d x).transform = "translateY(0)" ∧
      (∀ events, (revealRun carCard events (observerCallback entries d) x).opacity = "1") ∧
      (∀ events later,
        ((∀ e ∈ later, e.target = x → e.isIntersecting = false) ∨
          (revealRun carCard events (observerCallback entries d) x).transform =
            "translateY(0)") →
        observerCallback later (revealRun carCard events (observerCallback entries d)) x =
          revealRun carCard events (observerCallback entries d) x) ∧
      (carCard x = false → ∀ events later,
        observerCallback later (revealRun carCard events (observerCallback entries d)) x =
          observerCallback entries d x) ∧
      (∀ events later, (⟨x, true⟩ : Entry) ∈ later →
        (observerCallback later (revealRun carCard events (observerCallback entries d))
          x).transform = "translateY(0)") := by
  obtain ⟨ho, ht⟩ := observerCallback_marks entries x d hx
  refine ⟨ho, ht, fun events => revealRun_opacity carCard events x _ ho, ?_, ?_,
    fun events later hl => (observerCallback_marks later x _ hl).2⟩
  · intro events later h
    rcases h with h | h
    · exact observerCallback_apply_of_not_intersecting later x _ h
    · exact observerCallback_apply_of_visible later x _
        (revealRun_opacity carCard events x _ ho) h
  · intro hc events later
    have hrun := revealRun_apply_of_visible carCard events x hc (observerCallback entries d) ho ht
    rw [observerCallback_apply_of_visible later x _ (by rw [hrun]; exact ho)
      (by rw [hrun]; exact ht), hrun]

/-- C8 amended, at a concrete car card that is revealed and then hovered. -/
theorem reveal_one_shot_witness :
    (revealRun (fun _ => true) [.mouseenter 0]
        (observerCallback [⟨0, true⟩] hiddenStyles) 0).opacity = "1" :=
  (reveal_one_shot (fun _ => true) hiddenStyles 0 [⟨0, true⟩] (by decide)).2.2.1
    [.mouseenter 0]

/-- C9: the banner `showNotification` appends is coloured by exactly one of three
fixed gradients: the success one for the type "success", the error one for the type
"error", and the info one for every other type and for an omitted type, which
counts as "info" in the class name too. -/
theorem showNotification_background (message : String) (type : Option String) (w : Page) :
    ∃ b, (showNotification message type w).body = w.body ++ [b] ∧
      b.textContent = message ∧
      b.background =
        (if type = some "success" then "linear-gradient(135deg, #27ae60, #2ecc71)"
         else if type = some "error" then "linear-gradient(135deg, #e74c3c, #c0392b)"
         else "linear-gradient(135deg, #ff6b35, #e55a2b)") ∧
      b.className = "notification " ++ type.getD "info" := by
  refine ⟨newBanner w.nextId message type, rfl, rfl, ?_, rfl⟩
  · cases type with
    | none =>
      have h : backgroundFor "info" = "linear-gradient(135deg, #ff6b35, #e55a2b)" := by decide
      simp [newBanner, h]
    | some ty =>
      by_cases h1 : ty = "success"
      · subst h1
        have h : backgroundFor "success" = "linear-gradient(135deg, #27ae60, #2ecc71)" := by
          decide
        simp [newBanner, h]
      · by_cases h2 : ty = "error"
        · subst h2
          have h : backgroundFor "error" = "linear-gradient(135deg, #e74c3c, #c0392b)" := by
            decide
          simp [newBanner, h]
        · simp [newBanner, backgroundFor, h1, h2, infoGradient]

/-- C10: for every heading text, of `n` UTF-16 code units: after load the heading
is empty until the first tick at 800 ms; the ticks are 80 ms apart and each of the
first `n` appends one code unit, so that from the `k`-th tick, at
`800 + 80 * (k - 1)` ms, until the next one the heading is the prefix of length `k`
of the original text; the tick after the `n`-th unit, at `800 + 80 * n` ms, appends
nothing and schedules nothing: from then on the heading is the original text and no
timer is pending. -/
theorem typing_effect (text : CodeUnits) (options : List OptionElement)
    (defaults : FormFields) (t fuel : Nat) (hfuel : text.length + 1 ≤ fuel) :
    ∃ w', runUntil fuel t (loadedPage text options defaults) = some w' ∧
      (t < 800 → w'.heroTitle = [] ∧ w'.timers = [⟨800, .typeWriter⟩]) ∧
      (∀ k, 1 ≤ k → k ≤ text.length → 800 + 80 * (k - 1) ≤ t → t < 800 + 80 * k →
        w'.heroTitle = text.take k ∧ w'.timers = [⟨800 + 80 * k, .typeWriter⟩]) ∧
      (800 + 80 * text.length ≤ t → w'.heroTitle = text ∧ w'.timers = []) := by
  obtain ⟨w', hrun, htitle, htimers⟩ := typing_run t text.length
    (loadedPage text options defaults) 800 fuel rfl (by simp [loadedPage, startTyping]) hfuel
  have h0 : (loadedPage text options defaults).heroTitle = [] := rfl
  have h1 : (loadedPage text options defaults).originalText = text := rfl
  have h2 : (loadedPage text options defaults).i = 0 := rfl
  rw [h0, h1, h2, List.drop_zero, List.nil_append] at htitle
  refine ⟨w', hrun, ?_, ?_, ?_⟩
  · intro ht
    have hne : ¬ (800 + 80 * text.length ≤ t) := by omega
    rw [if_pos ht, List.take_zero] at htitle
    rw [if_neg hne, if_pos ht] at htimers
    exact ⟨htitle, htimers⟩
  · intro k hk1 hkn hlo hhi
    have ht : ¬ (t < 800) := by omega
    have hne : ¬ (800 + 80 * text.length ≤ t) := by omega
    have hm : (t - 800) / 80 + 1 = k := by omega
    rw [if_neg ht, hm] at htitle
    rw [if_neg hne, if_neg ht, hm] at htimers
    exact ⟨htitle, htimers⟩
  · intro hend
    have ht : ¬ (t < 800) := by omega
    rw [if_neg ht] at htitle
    rw [if_pos hend] at htimers
    refine ⟨?_, htimers⟩
    rw [htitle]
    apply List.take_of_length_le
    omega

/-- C10, for the heading "A😀", of three code units since the second character is
outside the Basic Multilingual Plane: 960 ms after load the third unit is typed
and the last tick is pending for 1040 ms. -/
theorem typing_effect_witness :
    (utf16 "A😀").length = 3 ∧
      ∃ w', runUntil 4 960 (loadedPage (utf16 "A😀") [] ⟨"", "", "", "", ""⟩) = some w' ∧
        w'.heroTitle = utf16 "A😀" ∧ w'.timers = [⟨1040, .typeWriter⟩] :=
  ⟨by decide,
    match typing_effect (utf16 "A😀") [] ⟨"", "", "", "", ""⟩ 960 4 (by decide) with
    | ⟨w', h, _, hk, _⟩ =>
      ⟨w', h, (hk 3 (by decide) (by decide) (by decide) (by decide)).1.trans (by decide),
        (hk 3 (by decide) (by decide) (by decide) (by decide)).2⟩⟩

end CarWebsite
